import Mathlib

/-!
Verification development for the kilorules repository cache generators.

The repository consists of two Python programs:
 - src/.kilocode/cache/cache_generator.py      (class CacheGenerator)
 - src/.kilocode/cache/api_cache_generator.py  (class ApiCacheGenerator)

This file gives a shallow embedding of both programs and proves/refutes the
specification claims about them.  Files are modelled as lists of lines
(strings without their trailing newline), the filesystem as an association
list from path to lines, the SHA-256 digest as an abstract function from
file content to digest string (only equality of digests matters to the
programs), JSON artifacts as structured Lean values mirroring the exact
dictionaries the programs build (serialization itself is out of scope per
the specification), and the iteration order of the one Python set used by
the programs (the SQL table-name set) as an explicit enumeration parameter,
because CPython randomizes string hashing and hence set iteration order
across processes.

Every regular-expression pattern of the source is hand-translated to a
deterministic matcher on lists of characters; the patterns involved are
simple enough (literals, character classes, a single optional group) that
greedy matching with one explicit alternative per optional group is
equivalent to the backtracking semantics of the re module.
-/

deriving instance DecidableEq for Except

namespace KiloRules

/-- Whitespace test matching CPython str.strip() with no arguments and the
regular-expression class for whitespace on ASCII input. -/
def pyIsSpace (c : Char) : Bool :=
  c = ' ' || c = '\t' || c = '\n' || c = '\r' || c = '\x0b' || c = '\x0c'

/-- Word-constituent test matching the regular-expression word class on
ASCII input (the files processed by the generators are ASCII). -/
def isWordChar (c : Char) : Bool := c.isAlphanum || c = '_'

/-- Python str.strip() with no arguments. -/
def pyStrip (s : String) : String :=
  ⟨((s.data.dropWhile pyIsSpace).reverse.dropWhile pyIsSpace).reverse⟩

/-- Python str.rstrip("\n"). -/
def pyRstripNL (s : String) : String :=
  ⟨(s.data.reverse.dropWhile (· = '\n')).reverse⟩

/-- Python str.lower() on ASCII input. -/
def pyLower (s : String) : String := ⟨s.data.map Char.toLower⟩

/-- Python str.upper() on ASCII input. -/
def pyUpper (s : String) : String := ⟨s.data.map Char.toUpper⟩

/-- Python s.count(c) for a single character. -/
def countChar (s : String) (c : Char) : Nat := (s.data.filter (· = c)).length

/-- Running brace-depth delta of one line:
line.count("\x7b") - line.count("\x7d") as used by both generators. -/
def braceDelta (s : String) : Int :=
  (countChar s '{' : Int) - (countChar s '}' : Int)

/-- List-of-characters test for pat being a prefix. -/
def isPrefOf : List Char → List Char → Bool
  | [], _ => true
  | _ :: _, [] => false
  | a :: ps, b :: cs => a = b && isPrefOf ps cs

/-- Python substring containment (pat in s). -/
def containsSub : List Char → List Char → Bool
  | cs, pat =>
    match cs with
    | [] => isPrefOf pat []
    | _ :: rest => isPrefOf pat cs || containsSub rest pat

/-- Python substring containment on strings. -/
def strContains (s pat : String) : Bool := containsSub s.data pat.data

/-- Python str.startswith on strings (list-based so that the kernel can
evaluate it). -/
def strStartsWith (s pre : String) : Bool := isPrefOf pre.data s.data

/-- Python slice s[n:] on strings, by character count (the inputs handled
by the generators are ASCII, where character and byte counts agree). -/
def strDrop (s : String) (n : Nat) : String := ⟨s.data.drop n⟩

/-- Index of the first occurrence of pat in s, if any (used only to phrase
first-occurrence claims, not part of the programs). -/
def firstOccIdx (s pat : String) : Option Nat :=
  go s.data 0
where
  go : List Char → Nat → Option Nat
    | cs, i =>
      if isPrefOf pat.data cs then some i
      else match cs with
        | [] => none
        | _ :: rest => go rest (i + 1)

/-- Matcher primitive for the whitespace-star pattern. -/
def skipWS (cs : List Char) : List Char := cs.dropWhile pyIsSpace

/-- Matcher primitive for the whitespace-plus pattern (at least one). -/
def skipWS1 : List Char → Option (List Char)
  | [] => none
  | c :: cs => if pyIsSpace c then some (skipWS cs) else none

/-- Matcher primitive for a case-sensitive literal. -/
def matchLit : List Char → List Char → Option (List Char)
  | [], cs => some cs
  | _ :: _, [] => none
  | a :: ps, b :: cs => if a = b then matchLit ps cs else none

/-- Matcher primitive for a case-insensitive literal. -/
def matchLitCI : List Char → List Char → Option (List Char)
  | [], cs => some cs
  | _ :: _, [] => none
  | a :: ps, b :: cs => if a.toLower = b.toLower then matchLitCI ps cs else none

/-- Matcher primitive for a word-plus capture (at least one word char). -/
def takeWord1 : List Char → Option (String × List Char)
  | [] => none
  | c :: cs =>
    if isWordChar c then some (⟨(c :: cs).takeWhile isWordChar⟩, (c :: cs).dropWhile isWordChar)
    else none

theorem len_dropWhile_le (p : Char → Bool) (cs : List Char) :
    (cs.dropWhile p).length ≤ cs.length := by
  induction cs with
  | nil => simp
  | cons c t ih =>
    by_cases hc : p c
    · simp only [List.dropWhile, hc]
      exact Nat.le_succ_of_le ih
    · simp [List.dropWhile, hc]

theorem skipWS_len (cs : List Char) : (skipWS cs).length ≤ cs.length :=
  len_dropWhile_le pyIsSpace cs

theorem skipWS1_len {cs r : List Char} (h : skipWS1 cs = some r) :
    r.length < cs.length := by
  cases cs with
  | nil => simp [skipWS1] at h
  | cons c t =>
    by_cases hc : pyIsSpace c
    · simp [skipWS1, hc] at h
      subst h
      exact Nat.lt_succ_of_le (skipWS_len t)
    · simp [skipWS1, hc] at h

theorem matchLit_len {p cs r : List Char} (h : matchLit p cs = some r) :
    r.length ≤ cs.length := by
  induction p generalizing cs with
  | nil => simp [matchLit] at h; subst h; exact Nat.le_refl _
  | cons a ps ih =>
    cases cs with
    | nil => simp [matchLit] at h
    | cons b t =>
      by_cases hab : a = b
      · simp [matchLit, hab] at h
        exact Nat.le_succ_of_le (ih h)
      · simp [matchLit, hab] at h

theorem matchLitCI_len {p cs r : List Char} (h : matchLitCI p cs = some r) :
    r.length ≤ cs.length := by
  induction p generalizing cs with
  | nil => simp [matchLitCI] at h; subst h; exact Nat.le_refl _
  | cons a ps ih =>
    cases cs with
    | nil => simp [matchLitCI] at h
    | cons b t =>
      by_cases hab : a.toLower = b.toLower
      · simp [matchLitCI, hab] at h
        exact Nat.le_succ_of_le (ih h)
      · simp [matchLitCI, hab] at h

theorem takeWord1_len {cs : List Char} {w : String} {r : List Char}
    (h : takeWord1 cs = some (w, r)) : r.length < cs.length := by
  cases cs with
  | nil => simp [takeWord1] at h
  | cons c t =>
    by_cases hc : isWordChar c
    · simp only [takeWord1, hc, if_true, Option.some.injEq, Prod.mk.injEq] at h
      have hr : r = (c :: t).dropWhile isWordChar := h.2.symm
      subst hr
      simp only [List.dropWhile, hc]
      exact Nat.lt_succ_of_le (len_dropWhile_le isWordChar t)
    · simp [takeWord1, hc] at h

/-! ### Pattern matchers of cache_generator.py -/

/-- Optional group of create_table_pattern: the if-not-exists part followed
by mandatory whitespace. -/
def matchIfNotExists (cs : List Char) : Option (List Char) := do
  let cs1 ← matchLitCI "if".data cs
  let cs2 ← skipWS1 cs1
  let cs3 ← matchLitCI "not".data cs2
  let cs4 ← skipWS1 cs3
  let cs5 ← matchLitCI "exists".data cs4
  skipWS1 cs5

/-- Translation of create_table_pattern (case-insensitive, anchored, with
leading whitespace allowed and an optional if-not-exists group).  When the
optional group matches but no word follows it, the engine backtracks to the
variant without the group, exactly as the re module does. -/
def matchCreateTable (line : String) : Option String := do
  let cs0 := skipWS line.data
  let cs1 ← matchLitCI "create".data cs0
  let cs2 ← skipWS1 cs1
  let cs3 ← matchLitCI "table".data cs2
  let cs4 ← skipWS1 cs3
  match matchIfNotExists cs4 with
  | some cs5 =>
    match takeWord1 cs5 with
    | some (w, _) => some w
    | none => (takeWord1 cs4).map (·.1)
  | none => (takeWord1 cs4).map (·.1)

/-- Translation of create_type_pattern. -/
def matchCreateType (line : String) : Option String := do
  let cs0 := skipWS line.data
  let cs1 ← matchLitCI "create".data cs0
  let cs2 ← skipWS1 cs1
  let cs3 ← matchLitCI "type".data cs2
  let cs4 ← skipWS1 cs3
  (takeWord1 cs4).map (·.1)

/-- Translation of create_function_pattern. -/
def matchCreateFunction (line : String) : Option String := do
  let cs0 := skipWS line.data
  let cs1 ← matchLitCI "create".data cs0
  let cs2 ← skipWS1 cs1
  let cs3 ← matchLitCI "function".data cs2
  let cs4 ← skipWS1 cs3
  (takeWord1 cs4).map (·.1)

/-- Translation of query_pattern of index_query_file: a structured comment
marker carrying a query name and an access-mode tag. -/
def matchQueryMarker (line : String) : Option (String × String) := do
  let cs1 ← matchLit "--".data line.data
  let cs2 := skipWS cs1
  let cs3 ← matchLit "name:".data cs2
  let cs4 := skipWS cs3
  let (w1, cs5) ← takeWord1 cs4
  let cs6 := skipWS cs5
  let cs7 ← matchLit ":".data cs6
  let (w2, _) ← takeWord1 cs7
  pure (w1, w2)

/-- Optional receiver group of func_pattern of index_generated_file:
an opening parenthesis, at least one character that is not a closing
parenthesis, a closing parenthesis, then mandatory whitespace. -/
def matchRecvGroup : List Char → Option (List Char)
  | '(' :: rest =>
    let inner := rest.takeWhile (· ≠ ')')
    let after := rest.dropWhile (· ≠ ')')
    if inner.isEmpty then none
    else match after with
      | ')' :: rest2 => skipWS1 rest2
      | _ => none
  | _ => none

/-- Translation of func_pattern of index_generated_file, applied to the
stripped line.  The receiver group is optional; when it matches but no word
follows, the engine backtracks to the variant without it. -/
def goFuncName (trimmed : String) : Option String := do
  let cs1 ← matchLit "func".data trimmed.data
  let cs2 ← skipWS1 cs1
  match matchRecvGroup cs2 with
  | some cs3 =>
    match takeWord1 cs3 with
    | some (w, _) => some w
    | none => (takeWord1 cs2).map (·.1)
  | none => (takeWord1 cs2).map (·.1)

/-- Shared head of the three type-keyword patterns of index_generated_file:
the type keyword, whitespace, a captured word, whitespace. -/
def goTypeHead (trimmed : String) : Option (String × List Char) := do
  let cs1 ← matchLit "type".data trimmed.data
  let cs2 ← skipWS1 cs1
  let (w, cs3) ← takeWord1 cs2
  let cs4 ← skipWS1 cs3
  pure (w, cs4)

/-- Translation of struct_pattern of index_generated_file. -/
def goStructName (trimmed : String) : Option String := do
  let (w, cs) ← goTypeHead trimmed
  let _ ← matchLit "struct".data cs
  pure w

/-- Translation of interface_pattern of index_generated_file. -/
def goInterfaceName (trimmed : String) : Option String := do
  let (w, cs) ← goTypeHead trimmed
  let _ ← matchLit "interface".data cs
  pure w

/-- Translation of const_pattern of index_generated_file (a const-or-var
alternation followed by a captured word). -/
def goConstVarName (trimmed : String) : Option String :=
  (do
    let cs1 ← matchLit "const".data trimmed.data
    let cs2 ← skipWS1 cs1
    (takeWord1 cs2).map (·.1))
  <|>
  (do
    let cs1 ← matchLit "var".data trimmed.data
    let cs2 ← skipWS1 cs1
    (takeWord1 cs2).map (·.1))

/-- Translation of type_pattern of index_generated_file (generic type
declaration: keyword, whitespace, captured word, trailing whitespace). -/
def goTypeName (trimmed : String) : Option String :=
  (goTypeHead trimmed).map (·.1)

/-! ### Pattern matchers of api_cache_generator.py -/

/-- Translation of struct_re of index_boilerplate, applied to the raw line
(anchored at column zero) with a word boundary after the struct keyword. -/
def bpStructName (line : String) : Option String := do
  let cs1 ← matchLit "type".data line.data
  let cs2 ← skipWS1 cs1
  let (w, cs3) ← takeWord1 cs2
  let cs4 ← skipWS1 cs3
  let cs5 ← matchLit "struct".data cs4
  match cs5 with
  | [] => pure w
  | c :: _ => if isWordChar c then none else pure w

/-- Translation of func_re of index_boilerplate: a method with the literal
ServerInterfaceWrapper receiver. -/
def bpFuncName (line : String) : Option String := do
  let cs1 ← matchLit "func".data line.data
  let cs2 ← skipWS1 cs1
  let cs3 ← matchLit "(siw *ServerInterfaceWrapper)".data cs2
  let cs4 ← skipWS1 cs3
  let (w, cs5) ← takeWord1 cs4
  let cs6 := skipWS cs5
  let _ ← matchLit "(".data cs6
  pure w

/-- Translation of const_var_re of index_boilerplate.  The trailing word
boundary of the pattern always holds after a maximal word capture. -/
def bpConstVarName (line : String) : Option (String × String) :=
  (do
    let cs1 ← matchLit "const".data line.data
    let cs2 ← skipWS1 cs1
    let (w, _) ← takeWord1 cs2
    pure ("const", w))
  <|>
  (do
    let cs1 ← matchLit "var".data line.data
    let cs2 ← skipWS1 cs1
    let (w, _) ← takeWord1 cs2
    pure ("var", w))

/-- Translation of type_re of index_boilerplate: keyword, whitespace,
captured word, whitespace, at least one non-whitespace character. -/
def bpTypeName (line : String) : Option String := do
  let cs1 ← matchLit "type".data line.data
  let cs2 ← skipWS1 cs1
  let (w, cs3) ← takeWord1 cs2
  let cs4 ← skipWS1 cs3
  match cs4 with
  | [] => none
  | _ :: _ => pure w

/-- Translation of path_re of index_paths: exactly two whitespace
characters, a key starting with a slash, a colon, then only whitespace to
the end of the line.  At most one colon of the line can be followed by
whitespace only, so greedy matching is deterministic. -/
def pathKeyName (line : String) : Option String :=
  match line.data with
  | c1 :: c2 :: rest =>
    if pyIsSpace c1 && pyIsSpace c2 then
      match rest.reverse.dropWhile pyIsSpace with
      | ':' :: revg =>
        match revg.reverse with
        | '/' :: body =>
          if body.isEmpty || ('/' :: body).contains '\n' then none
          else some ⟨'/' :: body⟩
        | _ => none
      | _ => none
    else none
  | _ => none

/-- HTTP method alternation of method_re of index_paths. -/
def httpMethods : List String :=
  ["get", "post", "put", "delete", "patch", "options", "head"]

/-- Alternation engine for method_re: try each method name in order
against the rest of the line; the captured text is uppercased as the
source does with the matched group. -/
def methodAlt : List String → List Char → Option String
  | [], _ => none
  | m :: ms, cs =>
    match matchLitCI m.data cs with
    | some r =>
      match r with
      | ':' :: r2 =>
        if r2.all pyIsSpace then some ⟨(cs.take m.data.length).map Char.toUpper⟩
        else methodAlt ms cs
      | _ => methodAlt ms cs
    | none => methodAlt ms cs

/-- Translation of method_re of index_paths: exactly four whitespace
characters, a case-insensitive method token, a colon, trailing whitespace. -/
def methodKeyName (line : String) : Option String :=
  match line.data with
  | c1 :: c2 :: c3 :: c4 :: rest =>
    if pyIsSpace c1 && pyIsSpace c2 && pyIsSpace c3 && pyIsSpace c4 then
      methodAlt httpMethods rest
    else none
  | _ => none

/-- Translation of schema_header_re of index_schemas: exactly four
whitespace characters, a captured word, a colon, trailing whitespace. -/
def schemaHeaderName (line : String) : Option String :=
  match line.data with
  | c1 :: c2 :: c3 :: c4 :: rest =>
    if pyIsSpace c1 && pyIsSpace c2 && pyIsSpace c3 && pyIsSpace c4 then
      match takeWord1 rest with
      | some (w, r) =>
        match r with
        | ':' :: r2 => if r2.all pyIsSpace then some w else none
        | _ => none
      | none => none
    else none
  | _ => none

/-! ### Scanning for all matches (re.findall) -/

/-- Single attempt of the schema-pointer pattern of
extract_schema_dependencies at the current position. -/
def matchSchemaRef (cs : List Char) : Option (String × List Char) := do
  let cs1 ← matchLit "#/components/schemas/".data cs
  takeWord1 cs1

theorem matchSchemaRef_len {cs : List Char} {w : String} {r : List Char}
    (h : matchSchemaRef cs = some (w, r)) : r.length < cs.length := by
  unfold matchSchemaRef at h
  cases h1 : matchLit "#/components/schemas/".data cs with
  | none => rw [h1] at h; simp at h
  | some cs1 =>
    rw [h1] at h
    simp only [Option.bind_eq_bind, Option.some_bind] at h
    exact Nat.lt_of_lt_of_le (takeWord1_len h) (matchLit_len h1)

/-- Scanner for all matches of the schema-pointer pattern, continuing
after the end of each match as re.findall does.  The fuel argument only
bounds the recursion; every step strictly consumes input, so any fuel of
at least the input length yields the untruncated scan. -/
def findSchemaRefsAux : Nat → List Char → List String
  | 0, _ => []
  | _, [] => []
  | fuel + 1, c :: cs =>
    match matchSchemaRef (c :: cs) with
    | some (w, rest) => w :: findSchemaRefsAux fuel rest
    | none => findSchemaRefsAux fuel cs

/-- All captures of the schema-pointer pattern in a text. -/
def findSchemaRefs (cs : List Char) : List String := findSchemaRefsAux cs.length cs

/-- One keyword-anchored table pattern of extract_table_dependencies:
each keyword is case-insensitive and followed by mandatory whitespace,
ending in a captured word. -/
def matchKwSeq : List String → List Char → Option (String × List Char)
  | [], cs => takeWord1 cs
  | k :: ks, cs => do
    let cs1 ← matchLitCI k.data cs
    let cs2 ← skipWS1 cs1
    matchKwSeq ks cs2

theorem matchKwSeq_len {ks : List String} {cs : List Char} {w : String}
    {r : List Char} (h : matchKwSeq ks cs = some (w, r)) : r.length < cs.length := by
  induction ks generalizing cs with
  | nil => exact takeWord1_len h
  | cons k ks ih =>
    unfold matchKwSeq at h
    cases h1 : matchLitCI k.data cs with
    | none => rw [h1] at h; simp at h
    | some cs1 =>
      rw [h1] at h
      simp only [Option.bind_eq_bind, Option.some_bind] at h
      cases h2 : skipWS1 cs1 with
      | none => rw [h2] at h; simp at h
      | some cs2 =>
        rw [h2] at h
        simp only [Option.some_bind] at h
        exact Nat.lt_of_lt_of_le (Nat.lt_of_lt_of_le (ih h) (Nat.le_of_lt (skipWS1_len h2)))
          (matchLitCI_len h1)

/-- Scanner for all matches of one table pattern.  The boolean argument
records whether the previous character was a word constituent: the pattern
starts with a word boundary, so a match may only begin where it is false.
After a successful match the scan resumes at the match end, whose previous
character is the last character of the captured word.  The fuel argument
only bounds the recursion; every step strictly consumes input. -/
def findKwRefsAux (ks : List String) : Nat → List Char → Bool → List String
  | 0, _, _ => []
  | _, [], _ => []
  | fuel + 1, c :: cs, prevW =>
    if !prevW then
      match matchKwSeq ks (c :: cs) with
      | some (w, rest) => w :: findKwRefsAux ks fuel rest true
      | none => findKwRefsAux ks fuel cs (isWordChar c)
    else findKwRefsAux ks fuel cs (isWordChar c)

/-- All captures of one table pattern in the query text. -/
def findKwRefs (ks : List String) (text : String) : List String :=
  findKwRefsAux ks text.data.length text.data false

/-! ### Data model -/

/-- Line range of the data model, mirroring the FileRange dataclass of both
generators: 1-indexed, inclusive. -/
structure FileRange where
  start_line : Nat
  end_line : Nat
deriving Repr, DecidableEq

/-- File index of cache_generator.py: path, total line count and an
insertion-ordered mapping from entity name to line range (a Python dict). -/
structure FileIndex where
  file_path : String
  total_lines : Nat
  ranges : List (String × FileRange)
deriving Repr, DecidableEq

/-- Lookup in an insertion-ordered dictionary (Python d.get(k)). -/
def dictGet {α : Type} : List (String × α) → String → Option α
  | [], _ => none
  | (k2, v) :: t, k => if k2 = k then some v else dictGet t k

/-- Update of an insertion-ordered dictionary (Python d[k] = v): replaces
in place when the key is present, appends otherwise. -/
def dictInsert {α : Type} : List (String × α) → String → α → List (String × α)
  | [], k, v => [(k, v)]
  | (k2, w) :: t, k, v => if k2 = k then (k2, v) :: t else (k2, w) :: dictInsert t k v

/-- Element addition to a Python set, remembered in insertion order; the
iteration order of the concrete set is a separate enumeration parameter. -/
def setAdd (l : List String) (x : String) : List String :=
  if l.contains x then l else l ++ [x]

/-! ### Range-reading helpers -/

/-- Python list slice semantics for nonnegative bounds, and the join used
by ApiCacheGenerator._read_range.  Source lines are modelled without their
trailing newline, so joining inserts the newline separator. -/
def readRangeStr (lines : List String) (fr : FileRange) : String :=
  let start := max fr.start_line 1 - 1
  let stop := min fr.end_line lines.length
  String.intercalate "\n" ((lines.drop start).take (stop - start))

/-- Python range(a, b) over naturals. -/
def pyRangeList (a b : Nat) : List Nat := List.range' a (b - a)

/-- Left-to-right indexing of a line list at the given positions, stopping
at the first out-of-bounds index as the Python comprehension would raise. -/
def readIdxList (lines : List String) : List Nat → Option (List String)
  | [] => some []
  | i :: is =>
    match lines.get? i with
    | some l => (readIdxList lines is).map (fun t => pyRstripNL l :: t)
    | none => none

/-- Translation of CacheGenerator._read_file_lines: index each position of
range(start_line - 1, min(end_line, len(lines))) and strip the newline.
Indexing is fallible in Python (IndexError), hence the Option result. -/
def readFileLinesOpt (lines : List String) (s e : Nat) : Option (List String) :=
  readIdxList lines (pyRangeList (s - 1) (min e lines.length))

/-- Translation of CacheGenerator._read_file_range_content. -/
def readRangeContent (lines : List String) (fr : FileRange) : Option String :=
  (readFileLinesOpt lines fr.start_line fr.end_line).map (String.intercalate "\n")

/-! ### Extractor for schema.sql (CacheGenerator.index_schema_file) -/

/-- Scan state shared by the schema and query extractors: the ranges dict
and the currently open entity with its start line.  In the source the
current name and the in-definition flag are always set and cleared
together, so a single option models both. -/
structure NameScanState where
  ranges : List (String × FileRange)
  cur : Option (String × Nat)
deriving Repr, DecidableEq

/-- Closing of the open entity at the line before a new opener, then
opening the new one, as each create-pattern branch of index_schema_file
does. -/
def schemaOpen (st : NameScanState) (nm : String) (n : Nat) : NameScanState :=
  match st.cur with
  | some (c, s) => { ranges := dictInsert st.ranges c ⟨s, n - 1⟩, cur := some (nm, n) }
  | none => { ranges := st.ranges, cur := some (nm, n) }

/-- Processing of one line of schema.sql at 1-based line number n. -/
def schemaStep (n : Nat) (line : String) (st : NameScanState) : NameScanState :=
  match matchCreateTable line with
  | some nm => schemaOpen st nm n
  | none =>
  match matchCreateType line with
  | some nm => schemaOpen st nm n
  | none =>
  match matchCreateFunction line with
  | some nm => schemaOpen st nm n
  | none =>
    match st.cur with
    | some (c, s) =>
      if strStartsWith (pyStrip line) ";" then
        { ranges := dictInsert st.ranges c ⟨s, n⟩, cur := none }
      else st
    | none => st

/-- Generic left-to-right scan over the lines of a file with 1-based line
numbers. -/
def scanLinesAux {σ : Type} (step : Nat → String → σ → σ) : List String → Nat → σ → σ
  | [], _, st => st
  | l :: ls, n, st => scanLinesAux step ls (n + 1) (step n l st)

/-- Ranges produced by index_schema_file on the given lines, including the
final flush of the still-open entity at the last line. -/
def scanSchema (lines : List String) : List (String × FileRange) :=
  let st := scanLinesAux schemaStep lines 1 ⟨[], none⟩
  match st.cur with
  | some (c, s) => dictInsert st.ranges c ⟨s, lines.length⟩
  | none => st.ranges

/-! ### Extractor for query.sql (CacheGenerator.index_query_file) -/

/-- Processing of one line of query.sql at 1-based line number n. -/
def queryStep (n : Nat) (line : String) (st : NameScanState) : NameScanState :=
  match matchQueryMarker line with
  | some (nm, _) =>
    match st.cur with
    | some (c, s) => { ranges := dictInsert st.ranges c ⟨s, n - 1⟩, cur := some (nm, n) }
    | none => { ranges := st.ranges, cur := some (nm, n) }
  | none => st

/-- Ranges produced by index_query_file on the given lines. -/
def scanQuery (lines : List String) : List (String × FileRange) :=
  let st := scanLinesAux queryStep lines 1 ⟨[], none⟩
  match st.cur with
  | some (c, s) => dictInsert st.ranges c ⟨s, lines.length⟩
  | none => st.ranges

/-! ### Extractor for generated Go files (CacheGenerator.index_generated_file) -/

/-- Scan state of index_generated_file: ranges, open entity, brace depth.
The brace counter is an integer since it may go negative on malformed
input. -/
structure GenScanState where
  ranges : List (String × FileRange)
  cur : Option (String × Nat)
  brace : Int
deriving Repr, DecidableEq

/-- Processing of one line of a generated Go file at line number n. -/
def genStep (n : Nat) (line : String) (st : GenScanState) : GenScanState :=
  let trimmed := pyStrip line
  let brace1 := st.brace + braceDelta line
  match goFuncName trimmed with
  | some nm =>
    let r := match st.cur with
      | some (c, s) => dictInsert st.ranges c ⟨s, n - 1⟩
      | none => st.ranges
    { ranges := r, cur := some (nm, n), brace := braceDelta line }
  | none =>
  match goStructName trimmed with
  | some nm =>
    let r := match st.cur with
      | some (c, s) => if brace1 = 0 then dictInsert st.ranges c ⟨s, n - 1⟩ else st.ranges
      | none => st.ranges
    { ranges := r, cur := some (nm, n), brace := braceDelta line }
  | none =>
  match goInterfaceName trimmed with
  | some nm =>
    let r := match st.cur with
      | some (c, s) => if brace1 = 0 then dictInsert st.ranges c ⟨s, n - 1⟩ else st.ranges
      | none => st.ranges
    { ranges := r, cur := some (nm, n), brace := braceDelta line }
  | none =>
  match (if strContains trimmed "struct" || strContains trimmed "interface" then none
         else goTypeName trimmed) with
  | some nm =>
    let r := match st.cur with
      | some (c, s) => if brace1 = 0 then dictInsert st.ranges c ⟨s, n - 1⟩ else st.ranges
      | none => st.ranges
    { ranges := r, cur := some (nm, n), brace := brace1 }
  | none =>
    match st.cur with
    | some (c, s) =>
      if brace1 = 0 && trimmed ≠ "" && ¬ strStartsWith trimmed "//" then
        { ranges := dictInsert st.ranges c ⟨s, n⟩, cur := none, brace := brace1 }
      else { st with brace := brace1 }
    | none => { st with brace := brace1 }

/-- Ranges produced by index_generated_file on the given lines. -/
def scanGenerated (lines : List String) : List (String × FileRange) :=
  let st := scanLinesAux genStep lines 1 ⟨[], none, 0⟩
  match st.cur with
  | some (c, s) => dictInsert st.ranges c ⟨s, lines.length⟩
  | none => st.ranges

/-! ### Extractor for boilerplate.gen.go (ApiCacheGenerator.index_boilerplate) -/

/-- Entity of the boilerplate index, mirroring the BoilerplateEntity
dataclass. -/
structure BpEntity where
  type : String
  name : String
  file : String
  range : FileRange
  code : String
deriving Repr, DecidableEq

/-- Scan state of index_boilerplate: entities dict, open entity with its
kind and start line, brace depth. -/
structure BpScanState where
  entities : List (String × BpEntity)
  cur : Option (String × String × Nat)
  brace : Int
deriving Repr, DecidableEq

/-- Closing of the open boilerplate entity before line lineno, reading its
code back from the same file as _read_range does. -/
def bpClosePrev (allLines : List String) (file : String)
    (ents : List (String × BpEntity)) (nm ty : String) (s lineno : Nat) :
    List (String × BpEntity) :=
  let endL := if lineno > s then lineno - 1 else s
  let fr : FileRange := ⟨s, endL⟩
  dictInsert ents nm ⟨ty, nm, file, fr, readRangeStr allLines fr⟩

/-- Processing of one line of boilerplate.gen.go at line number n. -/
def bpStep (allLines : List String) (file : String) (n : Nat) (line : String)
    (st : BpScanState) : BpScanState :=
  let brace1 := st.brace + braceDelta line
  match bpFuncName line with
  | some nm =>
    let e := match st.cur with
      | some (c, ty, s) => bpClosePrev allLines file st.entities c ty s n
      | none => st.entities
    { entities := e, cur := some (nm, "func", n), brace := braceDelta line }
  | none =>
  match bpStructName line with
  | some nm =>
    let e := match st.cur with
      | some (c, ty, s) =>
        if brace1 = 0 then bpClosePrev allLines file st.entities c ty s n else st.entities
      | none => st.entities
    { entities := e, cur := some (nm, "struct", n), brace := braceDelta line }
  | none =>
  match bpConstVarName line with
  | some (kind, nm) =>
    let e := match st.cur with
      | some (c, ty, s) =>
        if brace1 = 0 then bpClosePrev allLines file st.entities c ty s n else st.entities
      | none => st.entities
    { entities := e, cur := some (nm, kind, n), brace := brace1 }
  | none =>
  match (if (bpStructName line).isSome then none else bpTypeName line) with
  | some nm =>
    let e := match st.cur with
      | some (c, ty, s) =>
        if brace1 = 0 then bpClosePrev allLines file st.entities c ty s n else st.entities
      | none => st.entities
    { entities := e, cur := some (nm, "type", n), brace := brace1 }
  | none =>
    match st.cur with
    | some (c, ty, s) =>
      let stripped := pyStrip line
      if brace1 = 0 && stripped ≠ "" && ¬ strStartsWith stripped "//" then
        { entities := bpClosePrev allLines file st.entities c ty s n, cur := none,
          brace := brace1 }
      else { st with brace := brace1 }
    | none => { st with brace := brace1 }

/-- Entities produced by index_boilerplate on the given lines, including
the final flush of the still-open entity at the last line. -/
def scanBoilerplate (lines : List String) (file : String) : List (String × BpEntity) :=
  let st := scanLinesAux (bpStep lines file) lines 1 ⟨[], none, 0⟩
  match st.cur with
  | some (c, ty, s) =>
    let fr : FileRange := ⟨s, lines.length⟩
    dictInsert st.entities c ⟨ty, c, file, fr, readRangeStr lines fr⟩
  | none => st.entities

/-! ### Extractor for the paths section of taskflow.yaml
(ApiCacheGenerator.index_paths) -/

/-- Path entry of the paths index, mirroring the PathEntry dataclass. -/
structure PathEntry where
  operation_id : String
  method : String
  path : String
  range : FileRange
deriving Repr, DecidableEq

/-- Inner scan extending the end of an operation block until the next path
key or the components root line, mirroring the innermost while loop of
index_paths. -/
def opExtendEnd : List String → Nat → Nat
  | [], cur => cur
  | l :: ls, cur =>
    if (pathKeyName l).isSome || strStartsWith (pyStrip l) "components:" then cur
    else opExtendEnd ls (cur + 1)

/-- Middle scan of index_paths looking for the operation identifier inside
a method block; on success the entry range runs from the enclosing path
line to the computed end.  An empty identifier is falsy in Python and
yields no entry while still ending the scan. -/
def opScanForId : List String → Nat → String → Nat → String → Option (String × PathEntry)
  | [], _, _, _, _ => none
  | l2 :: rs2, lineno2, path, pathLine, method =>
    if (pathKeyName l2).isSome || strStartsWith (pyStrip l2) "components:" then none
    else
      let s2 := pyStrip l2
      if strStartsWith s2 "operationId:" then
        let opId := pyStrip (strDrop s2 12)
        if opId ≠ "" then
          some (opId, ⟨opId, method, path, ⟨pathLine, opExtendEnd rs2 lineno2⟩⟩)
        else none
      else opScanForId rs2 (lineno2 + 1) path pathLine method

/-- Outer loop of index_paths over the lines of taskflow.yaml. -/
def pathsScanAux : List String → Nat → Bool → Option (String × Nat) →
    List (String × PathEntry) → List (String × PathEntry)
  | [], _, _, _, acc => acc
  | line :: rs, n, started, curPath, acc =>
    let stripped := pyStrip line
    if !started then
      if stripped = "paths:" then pathsScanAux rs (n + 1) true curPath acc
      else pathsScanAux rs (n + 1) false curPath acc
    else if strStartsWith stripped "components:" then acc
    else
      match pathKeyName line with
      | some p => pathsScanAux rs (n + 1) started (some (p, n)) acc
      | none =>
        match methodKeyName line, curPath with
        | some m, some (p, pl) =>
          let acc2 := match opScanForId rs (n + 1) p pl m with
            | some (opId, entry) => dictInsert acc opId entry
            | none => acc
          pathsScanAux rs (n + 1) started curPath acc2
        | _, _ => pathsScanAux rs (n + 1) started curPath acc

/-- Paths index produced by index_paths on the given lines. -/
def scanPaths (lines : List String) : List (String × PathEntry) :=
  pathsScanAux lines 1 false none []

/-! ### Extractor for the schemas section of taskflow.yaml
(ApiCacheGenerator.index_schemas) -/

/-- Inner scan of index_schemas extending a schema block until the next
header or a conservatively detected outdent; returns the end line and the
number of lines consumed. -/
def schemasExtent : List String → Nat → Nat → Nat × Nat
  | [], _, endCur => (endCur, 0)
  | l2 :: rs2, nxt, endCur =>
    let s2 := pyRstripNL l2
    if (schemaHeaderName l2).isSome then (endCur, 0)
    else if pyStrip s2 ≠ "" && ¬ strStartsWith s2 "      " && ¬ strStartsWith s2 "    " then
      (endCur, 0)
    else
      let (e, c) := schemasExtent rs2 (nxt + 1) nxt
      (e, c + 1)

/-- Outer loop of index_schemas; after a schema block the outer scan
resumes at the line that ended the block.  The fuel argument only bounds
the recursion; every step strictly consumes input. -/
def schemasScanAux : Nat → List String → Nat → Bool → List (String × FileRange) →
    List (String × FileRange)
  | 0, _, _, _, acc => acc
  | _, [], _, _, acc => acc
  | fuel + 1, line :: rs, n, started, acc =>
    if !started then
      if pyStrip line = "schemas:" then schemasScanAux fuel rs (n + 1) true acc
      else schemasScanAux fuel rs (n + 1) false acc
    else
      match schemaHeaderName line with
      | some nm =>
        let (e, c) := schemasExtent rs (n + 1) n
        schemasScanAux fuel (rs.drop c) (n + 1 + c) started (dictInsert acc nm ⟨n, e⟩)
      | none => schemasScanAux fuel rs (n + 1) started acc

/-- Schemas index produced by index_schemas on the given lines. -/
def scanSchemasYaml (lines : List String) : List (String × FileRange) :=
  schemasScanAux lines.length lines 1 false []

/-! ### Reference resolution of cache_generator.py -/

/-- Table dependency of a query, mirroring the TableDependency dataclass. -/
structure TableDependency where
  table_name : String
  range : FileRange
  file : String
  table_sql : String
deriving Repr, DecidableEq

/-- Generated-code record of a query cache, mirroring the GeneratedCode
dataclass. -/
structure GeneratedCode where
  type : String
  name : String
  code : String
  range : FileRange
  file : String
deriving Repr, DecidableEq

/-- Unit cache of one query, mirroring the QueryCache dataclass. -/
structure QueryCache where
  query_name : String
  query_sql : String
  query_range : FileRange
  query_file : String
  tables : List TableDependency
  generated_code : List GeneratedCode
deriving Repr, DecidableEq

/-- Reserved-word filter of extract_table_dependencies. -/
def sqlKeywords : List String :=
  ["SELECT", "FROM", "WHERE", "JOIN", "INNER", "LEFT", "RIGHT", "FULL",
   "OUTER", "ON", "AS", "AND", "OR", "NOT", "IN", "EXISTS", "UNION",
   "INSERT", "UPDATE", "DELETE", "INTO", "SET", "VALUES", "WITH",
   "GROUP", "ORDER", "BY", "HAVING", "LIMIT", "OFFSET", "DISTINCT",
   "ALL", "ANY", "CASE", "WHEN", "THEN", "ELSE", "END", "CAST",
   "COALESCE", "NULL", "TRUE", "FALSE", "IS", "LIKE", "ILIKE",
   "BETWEEN", "ASC", "DESC"]

/-- Keyword sequences of the six table patterns, in source order. -/
def tablePatterns : List (List String) :=
  [["FROM"], ["JOIN"], ["INTO"], ["UPDATE"], ["DELETE", "FROM"], ["INSERT", "INTO"]]

/-- Construction of the Python set of candidate table names, remembered in
insertion order: candidates are produced pattern by pattern and filtered
against the reserved words before insertion. -/
def tableCandidates (querySql : String) : List String :=
  tablePatterns.foldl (fun acc ks =>
    (findKwRefs ks querySql).foldl (fun acc2 nm =>
      let tn := pyStrip nm
      if sqlKeywords.contains (pyUpper tn) then acc2 else setAdd acc2 tn) acc) []

/-- Translation of extract_table_dependencies.  The iteration order of the
candidate set is supplied by tableIter, since CPython string-set iteration
order is unspecified across processes; fsSchema is the schema file content
if the file exists (reading a missing file raises, modelled by the error
case, and happens only when some candidate is present in the index). -/
def extractTableDeps (tableIter : List String → List String)
    (fsSchema : Option (List String)) (schemaRel : String)
    (querySql : String) (schemaIdx : FileIndex) :
    Except Unit (List TableDependency) :=
  (tableIter (tableCandidates querySql)).foldlM (fun deps tn =>
    match dictGet schemaIdx.ranges tn with
    | some r =>
      match fsSchema with
      | some lines =>
        match readRangeContent lines r with
        | some sql => Except.ok (deps ++ [⟨tn, r, schemaRel, sql⟩])
        | none => Except.error ()
      | none => Except.error ()
    | none => Except.ok deps) []

/-- First index among the generated indices whose file path equals the
given relative path, as the values scan of extract_generated_code does. -/
def findIdxByPath : List (String × FileIndex) → String → Option FileIndex
  | [], _ => none
  | (_, idx) :: t, rel => if idx.file_path = rel then some idx else findIdxByPath t rel

/-- Translation of extract_generated_code.  The two configuration lookups
raise KeyError when absent (error case); a configured file that does not
exist on disk is skipped. -/
def extractGeneratedCode (fs : List (String × List String))
    (generatedCfg : List (String × String)) (queryName : String)
    (gis : List (String × FileIndex)) : Except Unit (List GeneratedCode) := do
  let qsg ← match dictGet generatedCfg "query_sql_go" with
    | some p => Except.ok p
    | none => Except.error ()
  let part1 ← match dictGet fs qsg with
    | some qlines =>
      match findIdxByPath gis qsg with
      | some idx =>
        match dictGet idx.ranges queryName with
        | some r =>
          match readRangeContent qlines r with
          | some code => Except.ok [(⟨"function", queryName, code, r, qsg⟩ : GeneratedCode)]
          | none => Except.error ()
        | none => Except.ok ([] : List GeneratedCode)
      | none => Except.ok ([] : List GeneratedCode)
    | none => Except.ok ([] : List GeneratedCode)
  let msg ← match dictGet generatedCfg "models_sql_go" with
    | some p => Except.ok p
    | none => Except.error ()
  let part2 ← match dictGet fs msg with
    | some mlines =>
      match findIdxByPath gis msg with
      | some idx =>
        idx.ranges.foldlM (fun acc (p : String × FileRange) =>
          if strContains (pyLower p.1) (pyLower queryName) ||
             strContains (pyLower queryName) (pyLower p.1) then
            match readRangeContent mlines p.2 with
            | some code =>
              Except.ok (acc ++ [(⟨"struct", p.1, code, p.2, msg⟩ : GeneratedCode)])
            | none => Except.error ()
          else Except.ok acc) ([] : List GeneratedCode)
      | none => Except.ok ([] : List GeneratedCode)
    | none => Except.ok ([] : List GeneratedCode)
  pure (part1 ++ part2)

/-! ### Index persistence of cache_generator.py -/

/-- Serialized form of a line range, mirroring the nested dictionary
written by FileIndex.to_dict. -/
structure RangeDict where
  start_line : Nat
  end_line : Nat
deriving Repr, DecidableEq

/-- Serialized form of a file index, mirroring FileIndex.to_dict; the JSON
encoding of this structure is out of scope. -/
structure IndexDict where
  file_path : String
  total_lines : Nat
  ranges : List (String × RangeDict)
deriving Repr, DecidableEq

/-- Translation of FileIndex.to_dict. -/
def FileIndex.toDict (idx : FileIndex) : IndexDict :=
  ⟨idx.file_path, idx.total_lines,
   idx.ranges.map (fun p => (p.1, ⟨p.2.start_line, p.2.end_line⟩))⟩

/-- Translation of the index-loading code of CacheGenerator.generate. -/
def loadFileIndex (d : IndexDict) : FileIndex :=
  ⟨d.file_path, d.total_lines,
   d.ranges.map (fun p => (p.1, ⟨p.2.start_line, p.2.end_line⟩))⟩

/-! ### Fingerprint store and pipeline of cache_generator.py -/

/-- Configuration of CacheGenerator: paths are kept as their
base-directory-relative strings (path resolution is external to the core),
and the generated section is an insertion-ordered dictionary. -/
structure SqlConfig where
  schema_file : String
  query_file : String
  generated : List (String × String)
deriving Repr, DecidableEq

/-- World state of one CacheGenerator run: source filesystem, cache
directory contents (index artifacts and unit caches, keyed by file name;
index and cache file names cannot collide because query names contain no
dot), and the persisted fingerprint table. -/
structure SqlWorld where
  files : List (String × List String)
  store : List (String × IndexDict)
  caches : List (String × QueryCache)
  hashes : List (String × String)
deriving Repr, DecidableEq

/-- Translation of CacheGenerator._should_update_file.  The digest h is
abstract; only digest equality is observable.  Returns the decision, the
updated in-memory fingerprint table, and emitted diagnostics. -/
def shouldUpdateFile (h : List String → String) (fs : List (String × List String))
    (hashes : List (String × String)) (filePath relPath : String) :
    Bool × List (String × String) × List String :=
  match dictGet fs filePath with
  | none => (false, hashes, ["warning: file " ++ filePath ++ " does not exist"])
  | some content =>
    let current := h content
    match dictGet hashes relPath with
    | some stored =>
      if stored = current then (false, hashes, [])
      else (true, dictInsert hashes relPath current, [])
    | none => (true, dictInsert hashes relPath current, [])

/-- Translation of index_schema_file (the hash gate plus the scan). -/
def indexSchemaFile (h : List String → String) (fs : List (String × List String))
    (cfg : SqlConfig) (hashes : List (String × String)) :
    Option FileIndex × List (String × String) :=
  let (upd, hs2, _) := shouldUpdateFile h fs hashes cfg.schema_file cfg.schema_file
  if upd then
    match dictGet fs cfg.schema_file with
    | some lines => (some ⟨cfg.schema_file, lines.length, scanSchema lines⟩, hs2)
    | none => (none, hs2)
  else (none, hs2)

/-- Translation of index_query_file. -/
def indexQueryFile (h : List String → String) (fs : List (String × List String))
    (cfg : SqlConfig) (hashes : List (String × String)) :
    Option FileIndex × List (String × String) :=
  let (upd, hs2, _) := shouldUpdateFile h fs hashes cfg.query_file cfg.query_file
  if upd then
    match dictGet fs cfg.query_file with
    | some lines => (some ⟨cfg.query_file, lines.length, scanQuery lines⟩, hs2)
    | none => (none, hs2)
  else (none, hs2)

/-- Translation of index_generated_file for one configured path. -/
def indexGeneratedFile (h : List String → String) (fs : List (String × List String))
    (path : String) (hashes : List (String × String)) :
    Option FileIndex × List (String × String) :=
  let (upd, hs2, _) := shouldUpdateFile h fs hashes path path
  if upd then
    match dictGet fs path with
    | some lines => (some ⟨path, lines.length, scanGenerated lines⟩, hs2)
    | none => (none, hs2)
  else (none, hs2)

/-- Python pathlib stem of a path string: base name without its final
extension (a leading dot alone does not count as an extension). -/
def pathStem (p : String) : String :=
  let name : String := ⟨(p.data.reverse.takeWhile (· ≠ '/')).reverse⟩
  match name.data.reverse.dropWhile (· ≠ '.') with
  | '.' :: rest => if rest.isEmpty then name else ⟨rest.reverse⟩
  | _ => name

/-- Index artifact file name for a generated source path. -/
def stemIndexName (p : String) : String := pathStem p ++ ".index.json"

/-- Translation of generate_query_cache. -/
def generateQueryCache (tableIter : List String → List String)
    (fs : List (String × List String)) (cfg : SqlConfig)
    (queryName : String) (qr : FileRange) (schemaIdx : FileIndex)
    (gis : List (String × FileIndex)) : Except Unit QueryCache := do
  let qlines ← match dictGet fs cfg.query_file with
    | some L => Except.ok L
    | none => Except.error ()
  let qsql ← match readRangeContent qlines qr with
    | some s => Except.ok s
    | none => Except.error ()
  let tables ← extractTableDeps tableIter (dictGet fs cfg.schema_file) cfg.schema_file
    qsql schemaIdx
  let gc ← extractGeneratedCode fs cfg.generated queryName gis
  pure ⟨queryName, qsql, qr, cfg.query_file, tables, gc⟩

/-- Accumulator of the generated-file indexing loop. -/
structure GenLoopAcc where
  gis : List (String × FileIndex)
  store : List (String × IndexDict)
  hashes : List (String × String)
deriving Repr, DecidableEq

/-- One step of the generated-file indexing loop of generate. -/
def genLoopStep (h : List String → String) (fs : List (String × List String))
    (acc : GenLoopAcc) (kp : String × String) : GenLoopAcc :=
  match dictGet fs kp.2 with
  | some _ =>
    let (gidx, hs4) := indexGeneratedFile h fs kp.2 acc.hashes
    match gidx with
    | some idx =>
      ⟨acc.gis ++ [(kp.1, idx)], dictInsert acc.store (stemIndexName kp.2) idx.toDict, hs4⟩
    | none => ⟨acc.gis, acc.store, hs4⟩
  | none => acc

/-- One step of the generated-index loading loop of generate. -/
def genLoadStep (store : List (String × IndexDict))
    (gis : List (String × FileIndex)) (kp : String × String) : List (String × FileIndex) :=
  if (dictGet gis kp.1).isSome then gis
  else match dictGet store (stemIndexName kp.2) with
    | some d => gis ++ [(kp.1, loadFileIndex d)]
    | none => gis

/-- Resolved state after the indexing and loading phases of generate. -/
structure SqlResolved where
  schemaIdx : Option FileIndex
  queryIdx : Option FileIndex
  gis : List (String × FileIndex)
  store : List (String × IndexDict)
  hashes : List (String × String)
deriving Repr, DecidableEq

/-- Indexing and loading phases of CacheGenerator.generate: hash-gated
re-extraction with saves, then reloads of whatever was not re-extracted. -/
def sqlResolve (h : List String → String) (cfg : SqlConfig)
    (fs : List (String × List String)) (store0 : List (String × IndexDict))
    (hashes0 : List (String × String)) : SqlResolved :=
  let (schemaIdx0, hs1) := indexSchemaFile h fs cfg hashes0
  let store1 := match schemaIdx0 with
    | some idx => dictInsert store0 "schema.sql.index.json" idx.toDict
    | none => store0
  let (queryIdx0, hs2) := indexQueryFile h fs cfg hs1
  let store2 := match queryIdx0 with
    | some idx => dictInsert store1 "query.sql.index.json" idx.toDict
    | none => store1
  let acc3 := cfg.generated.foldl (genLoopStep h fs) ⟨[], store2, hs2⟩
  let schemaIdx : Option FileIndex := match schemaIdx0 with
    | some i => some i
    | none => (dictGet acc3.store "schema.sql.index.json").map loadFileIndex
  let queryIdx : Option FileIndex := match queryIdx0 with
    | some i => some i
    | none => (dictGet acc3.store "query.sql.index.json").map loadFileIndex
  let gis := cfg.generated.foldl (genLoadStep acc3.store) acc3.gis
  ⟨schemaIdx, queryIdx, gis, acc3.store, acc3.hashes⟩

/-- Cache-assembly phase of CacheGenerator.generate: one unit cache per
query of the resolved query index, each failure caught and skipped. -/
def sqlCachePhase (tableIter : List String → List String)
    (fs : List (String × List String)) (cfg : SqlConfig)
    (queryIdx schemaIdx : Option FileIndex) (gis : List (String × FileIndex)) :
    List (String × QueryCache) :=
  match queryIdx, schemaIdx with
  | some qi, some si =>
    qi.ranges.foldl (fun acc p =>
      match generateQueryCache tableIter fs cfg p.1 p.2 si gis with
      | .ok c => acc ++ [(p.1 ++ ".cache.json", c)]
      | .error _ => acc) []
  | _, _ => []

/-- Translation of CacheGenerator.generate, returning the final world and
the list of unit-cache artifacts written during the run, in write order. -/
def runSql (h : List String → String) (tableIter : List String → List String)
    (cfg : SqlConfig) (w : SqlWorld) : SqlWorld × List (String × QueryCache) :=
  let r := sqlResolve h cfg w.files w.store w.hashes
  let out := sqlCachePhase tableIter w.files cfg r.queryIdx r.schemaIdx r.gis
  let caches2 := out.foldl (fun cm p => dictInsert cm p.1 p.2) w.caches
  (⟨w.files, r.store, caches2, r.hashes⟩, out)

/-! ### Data model and persistence of api_cache_generator.py -/

/-- Serialization of a line range (FileRange.to_dict). -/
def FileRange.toDict (r : FileRange) : RangeDict := ⟨r.start_line, r.end_line⟩

/-- Schema entry of the schemas index, mirroring the SchemaEntry dataclass. -/
structure SchemaEntry where
  name : String
  range : FileRange
deriving Repr, DecidableEq

/-- Serialized form of a path entry (PathEntry.to_dict). -/
structure PathEntryDict where
  operation_id : String
  method : String
  path : String
  range : RangeDict
deriving Repr, DecidableEq

/-- Serialized paths index artifact (taskflow.paths.index.json). -/
structure PathsData where
  file_path : String
  total_lines : Nat
  paths : List (String × PathEntryDict)
deriving Repr, DecidableEq

/-- Serialized form of a schema entry (SchemaEntry.to_dict). -/
structure SchemaEntryDict where
  name : String
  range : RangeDict
deriving Repr, DecidableEq

/-- Serialized schemas index artifact (taskflow.schemas.index.json). -/
structure SchemasData where
  file_path : String
  total_lines : Nat
  schemas : List (String × SchemaEntryDict)
deriving Repr, DecidableEq

/-- Serialized form of a boilerplate entity (BoilerplateEntity.to_dict). -/
structure BpEntityDict where
  type : String
  name : String
  file : String
  range : RangeDict
  code : String
deriving Repr, DecidableEq

/-- Serialized boilerplate index artifact (boilerplate.gen.go.index.json). -/
structure BpData where
  file_path : String
  total_lines : Nat
  entities : List (String × BpEntityDict)
deriving Repr, DecidableEq

/-- Translation of PathEntry.to_dict. -/
def PathEntry.toDict (e : PathEntry) : PathEntryDict :=
  ⟨e.operation_id, e.method, e.path, e.range.toDict⟩

/-- Translation of the path-index loading code of index_paths: the
operation id is taken from the dictionary key. -/
def loadPathsData (d : PathsData) : List (String × PathEntry) :=
  d.paths.map (fun p =>
    (p.1, ⟨p.1, p.2.method, p.2.path, ⟨p.2.range.start_line, p.2.range.end_line⟩⟩))

/-- Translation of SchemaEntry.to_dict. -/
def SchemaEntry.toDict (e : SchemaEntry) : SchemaEntryDict := ⟨e.name, e.range.toDict⟩

/-- Translation of the schema-index loading code of index_schemas: the
name is taken from the dictionary key. -/
def loadSchemasData (d : SchemasData) : List (String × SchemaEntry) :=
  d.schemas.map (fun p => (p.1, ⟨p.1, ⟨p.2.range.start_line, p.2.range.end_line⟩⟩))

/-- Translation of BoilerplateEntity.to_dict. -/
def BpEntity.toDict (e : BpEntity) : BpEntityDict :=
  ⟨e.type, e.name, e.file, e.range.toDict, e.code⟩

/-- Translation of the boilerplate-index loading code of
index_boilerplate: the name is taken from the dictionary key. -/
def loadBpData (d : BpData) : List (String × BpEntity) :=
  d.entities.map (fun p =>
    (p.1, ⟨p.2.type, p.1, p.2.file, ⟨p.2.range.start_line, p.2.range.end_line⟩, p.2.code⟩))

/-- Schema dependency record of an operation cache, mirroring the
dictionaries built by _extract_schema_dependencies. -/
structure SchemaDepRec where
  name : String
  range : RangeDict
  file : String
  schema_yaml : String
deriving Repr, DecidableEq

/-- Operation cache artifact, mirroring the cache_obj dictionary of
generate_operation_cache (the nested boilerplate object is flattened into
its two fields). -/
structure OpCacheData where
  operation_id : String
  path : String
  method : String
  spec_file : String
  path_range : RangeDict
  path_yaml : String
  schemas : List SchemaDepRec
  boilerplate_file : String
  boilerplate_entities : List BpEntityDict
deriving Repr, DecidableEq

/-! ### Fingerprint store and pipeline of api_cache_generator.py -/

/-- Configuration of ApiCacheGenerator, paths relative to the base path. -/
structure ApiConfig where
  spec_file : String
  boilerplate_file : String
deriving Repr, DecidableEq

/-- World state of one ApiCacheGenerator run.  The three index artifacts
have fixed, pairwise distinct file names in the source, so each gets its
own slot; operation cache names always end in api.cache.json and cannot
collide with them. -/
structure ApiWorld where
  files : List (String × List String)
  pathsArt : Option PathsData
  schemasArt : Option SchemasData
  bpArt : Option BpData
  opCaches : List (String × OpCacheData)
  hashes : List (String × String)
deriving Repr, DecidableEq

/-- Translation of ApiCacheGenerator._should_reindex. -/
def shouldReindex (h : List String → String) (fs : List (String × List String))
    (hashes : List (String × String)) (relKey path : String) :
    Bool × List (String × String) × List String :=
  match dictGet fs path with
  | none => (false, hashes, ["[api-cache] Warning: file not found: " ++ path])
  | some content =>
    let current := h content
    match dictGet hashes relKey with
    | some stored =>
      if stored = current then (false, hashes, [])
      else (true, dictInsert hashes relKey current, [])
    | none => (true, dictInsert hashes relKey current, [])

/-- Translation of index_paths: hash gate, load of the existing artifact
when unchanged and present, otherwise a fresh scan that is also saved.
Reading a missing spec file raises (error case). -/
def apiIndexPaths (h : List String → String) (fs : List (String × List String))
    (cfg : ApiConfig) (hashes : List (String × String)) (art : Option PathsData) :
    Except Unit (List (String × PathEntry) × List (String × String) × Option PathsData) :=
  let (upd, hs2, _) := shouldReindex h fs hashes "taskflow.yaml" cfg.spec_file
  match upd, art with
  | false, some d => .ok (loadPathsData d, hs2, some d)
  | _, _ =>
    match dictGet fs cfg.spec_file with
    | none => .error ()
    | some lines =>
      let paths := scanPaths lines
      .ok (paths, hs2, some ⟨cfg.spec_file, lines.length, paths.map (fun p => (p.1, p.2.toDict))⟩)

/-- Translation of index_schemas (hash key taskflow.yaml.schemas over the
same spec file). -/
def apiIndexSchemas (h : List String → String) (fs : List (String × List String))
    (cfg : ApiConfig) (hashes : List (String × String)) (art : Option SchemasData) :
    Except Unit (List (String × SchemaEntry) × List (String × String) × Option SchemasData) :=
  let (upd, hs2, _) := shouldReindex h fs hashes "taskflow.yaml.schemas" cfg.spec_file
  match upd, art with
  | false, some d => .ok (loadSchemasData d, hs2, some d)
  | _, _ =>
    match dictGet fs cfg.spec_file with
    | none => .error ()
    | some lines =>
      let entries := (scanSchemasYaml lines).map (fun p => (p.1, (⟨p.1, p.2⟩ : SchemaEntry)))
      .ok (entries, hs2,
        some ⟨cfg.spec_file, lines.length, entries.map (fun p => (p.1, p.2.toDict))⟩)

/-- Translation of index_boilerplate. -/
def apiIndexBoilerplate (h : List String → String) (fs : List (String × List String))
    (cfg : ApiConfig) (hashes : List (String × String)) (art : Option BpData) :
    Except Unit (List (String × BpEntity) × List (String × String) × Option BpData) :=
  let (upd, hs2, _) := shouldReindex h fs hashes "boilerplate.gen.go" cfg.boilerplate_file
  match upd, art with
  | false, some d => .ok (loadBpData d, hs2, some d)
  | _, _ =>
    match dictGet fs cfg.boilerplate_file with
    | none => .error ()
    | some lines =>
      let ents := scanBoilerplate lines cfg.boilerplate_file
      .ok (ents, hs2, some ⟨cfg.boilerplate_file, lines.length,
        ents.map (fun p => (p.1, p.2.toDict))⟩)

/-- Translation of _extract_schema_dependencies: scan the operation block
for schema pointers, deduplicate by a seen set in first-occurrence order,
drop names absent from the schema index, and materialize each referenced
schema text from the live spec file. -/
def extractSchemaDeps (fsSpec : Option (List String)) (specRel : String)
    (opBlock : String) (schemaIdx : List (String × SchemaEntry)) :
    Except Unit (List SchemaDepRec) := do
  let acc ← (findSchemaRefs opBlock.data).foldlM
    (fun (acc : List String × List SchemaDepRec) m =>
      if acc.1.contains m then Except.ok acc
      else
        let seen2 := setAdd acc.1 m
        match dictGet schemaIdx m with
        | some entry =>
          match fsSpec with
          | some lines =>
            Except.ok (seen2,
              acc.2 ++ [⟨m, entry.range.toDict, specRel, readRangeStr lines entry.range⟩])
          | none => Except.error ()
        | none => Except.ok (seen2, acc.2)) (([], []) : List String × List SchemaDepRec)
  pure acc.2

/-- Translation of _extract_boilerplate_entities_for_op: name equality,
name-prefix or substring containment of the operation id. -/
def extractBpForOp (opId : String) (bpIdx : List (String × BpEntity)) :
    List BpEntityDict :=
  bpIdx.foldl (fun acc p =>
    if p.1 = opId || strStartsWith p.1 opId || strContains p.1 opId then acc ++ [p.2.toDict]
    else acc) []

/-- Translation of generate_operation_cache. -/
def generateOperationCache (fs : List (String × List String)) (cfg : ApiConfig)
    (op : PathEntry) (schemaIdx : List (String × SchemaEntry))
    (bpIdx : List (String × BpEntity)) : Except Unit OpCacheData := do
  let specLines ← match dictGet fs cfg.spec_file with
    | some L => Except.ok L
    | none => Except.error ()
  let opBlock := readRangeStr specLines op.range
  let schemas ← extractSchemaDeps (dictGet fs cfg.spec_file) cfg.spec_file opBlock schemaIdx
  let bpes := extractBpForOp op.operation_id bpIdx
  pure ⟨op.operation_id, op.path, op.method, cfg.spec_file, op.range.toDict, opBlock,
    schemas, cfg.boilerplate_file, bpes⟩

/-- Translation of ApiCacheGenerator.generate, returning the final world
and the operation-cache artifacts written during the run, in write order. -/
def runApi (h : List String → String) (cfg : ApiConfig) (w : ApiWorld) :
    Except Unit (ApiWorld × List (String × OpCacheData)) := do
  let (paths, hs1, art1) ← apiIndexPaths h w.files cfg w.hashes w.pathsArt
  let (schemas, hs2, art2) ← apiIndexSchemas h w.files cfg hs1 w.schemasArt
  let (bp, hs3, art3) ← apiIndexBoilerplate h w.files cfg hs2 w.bpArt
  let out := paths.foldl (fun acc p =>
    match generateOperationCache w.files cfg p.2 schemas bp with
    | .ok c => acc ++ [(p.2.operation_id ++ ".api.cache.json", c)]
    | .error _ => acc) []
  let caches2 := out.foldl (fun cm p => dictInsert cm p.1 p.2) w.opCaches
  pure (⟨w.files, art1, art2, art3, caches2, hs3⟩, out)

/-! ## Helper lemmas about dictionaries and reads -/

theorem dictGet_dictInsert_self {α : Type} (l : List (String × α)) (k : String) (v : α) :
    dictGet (dictInsert l k v) k = some v := by
  induction l with
  | nil => simp [dictInsert, dictGet]
  | cons p t ih =>
    obtain ⟨k2, w⟩ := p
    by_cases hk : k2 = k
    · simp [dictInsert, hk, dictGet]
    · simp [dictInsert, hk, dictGet, ih]

theorem dictGet_dictInsert_ne {α : Type} (l : List (String × α)) (k q : String) (v : α)
    (hne : q ≠ k) : dictGet (dictInsert l k v) q = dictGet l q := by
  have hkq : ¬ k = q := fun hh => hne hh.symm
  induction l with
  | nil => simp [dictInsert, dictGet, hkq]
  | cons p t ih =>
    obtain ⟨k2, w⟩ := p
    by_cases hk : k2 = k
    · subst hk
      simp [dictInsert, dictGet, hkq]
    · simp only [dictInsert, hk, if_false]
      by_cases hq : k2 = q
      · simp [dictGet, hq]
      · simp [dictGet, hq, ih]

theorem readIdxList_inbounds (lines : List String) (a n : Nat)
    (h : a + n ≤ lines.length) :
    readIdxList lines (List.range' a n)
      = some (((lines.drop a).take n).map pyRstripNL) := by
  induction n generalizing a with
  | zero =>
    show readIdxList lines [] = _
    simp [readIdxList]
  | succ n ih =>
    have ha : a < lines.length := by omega
    show readIdxList lines (a :: List.range' (a + 1) n) = _
    have hdrop := List.drop_eq_getElem_cons ha
    have hget : lines.get? a = some lines[a] := by
      rw [List.get?_eq_getElem?, List.getElem?_eq_getElem ha]
    simp only [readIdxList, hget]
    rw [ih (a + 1) (by omega)]
    rw [hdrop, List.take_succ_cons, List.map_cons]
    rfl

/-! ## Claim C10: totality of the range-reading helpers -/

/-- C10: for every file and every requested range with a start of at least
one, the range-reading helpers are total: _read_file_lines returns exactly
the slice from the start line to the end line clamped to the last line of
the file (so an end beyond the file is equivalent to the last line, and a
start beyond the file yields the empty result), and _read_range of the API
generator likewise clamps both bounds, with no out-of-bounds failure. -/
theorem claim_C10_read_helpers (lines : List String) (s e : Nat) (hs : 1 ≤ s) :
    (readFileLinesOpt lines s e).isSome
    ∧ readFileLinesOpt lines s e
        = some (((lines.drop (s - 1)).take (min e lines.length - (s - 1))).map pyRstripNL)
    ∧ (lines.length ≤ e → readFileLinesOpt lines s e = readFileLinesOpt lines s lines.length)
    ∧ (lines.length < s → readFileLinesOpt lines s e = some [])
    ∧ (lines.length ≤ e → readRangeStr lines ⟨s, e⟩ = readRangeStr lines ⟨s, lines.length⟩)
    ∧ (lines.length < s → readRangeStr lines ⟨s, e⟩ = "") := by
  have hmain : readFileLinesOpt lines s e
      = some (((lines.drop (s - 1)).take (min e lines.length - (s - 1))).map pyRstripNL) := by
    unfold readFileLinesOpt pyRangeList
    by_cases hc : s - 1 ≤ min e lines.length
    · exact readIdxList_inbounds lines (s - 1) (min e lines.length - (s - 1))
        (by omega)
    · have h0 : min e lines.length - (s - 1) = 0 := by omega
      rw [h0]
      simp [readIdxList]
  refine ⟨by rw [hmain]; rfl, hmain, ?_, ?_, ?_, ?_⟩
  · intro hle
    unfold readFileLinesOpt pyRangeList
    rw [Nat.min_eq_right hle, Nat.min_eq_right (Nat.le_refl _)]
  · intro hlt
    rw [hmain]
    have h0 : min e lines.length - (s - 1) = 0 := by
      have := Nat.min_le_right e lines.length
      omega
    rw [h0]
    simp
  · intro hle
    unfold readRangeStr
    simp only
    rw [Nat.min_eq_right hle, Nat.min_eq_right (Nat.le_refl _)]
  · intro hlt
    unfold readRangeStr
    simp only
    have hmax : max s 1 = s := Nat.max_eq_left hs
    rw [hmax]
    have h0 : min e lines.length - (s - 1) = 0 := by
      have := Nat.min_le_right e lines.length
      omega
    rw [h0]
    simp [String.intercalate]

/-- Witness for C10 at concrete inputs: an end bound past the end of the
two-line file is tolerated, and a start bound past the end yields empty
results. -/
theorem claim_C10_read_helpers_witness :
    (readFileLinesOpt ["alpha", "beta"] 1 5).isSome
    ∧ readFileLinesOpt ["alpha", "beta"] 3 5 = some []
    ∧ readRangeStr ["alpha", "beta"] ⟨3, 5⟩ = "" :=
  ⟨(claim_C10_read_helpers ["alpha", "beta"] 1 5 (by decide)).1,
   (claim_C10_read_helpers ["alpha", "beta"] 3 5 (by decide)).2.2.2.1 (by decide),
   (claim_C10_read_helpers ["alpha", "beta"] 3 5 (by decide)).2.2.2.2.2 (by decide)⟩

/-! ## Claim C5: reference exclusion on concrete SQL text -/

/-- Query text of the reference-exclusion scenario. -/
def c5QuerySql : String := "SELECT * FROM orders WHERE status = 'NEW'"

/-- One-line schema file defining the orders table. -/
def c5SchemaLines : List String := ["CREATE TABLE orders (id int);"]

/-- Schema index containing an entry named orders. -/
def c5SchemaIdx : FileIndex := ⟨"schema.sql", 1, [("orders", ⟨1, 1⟩)]⟩

/-- C5: on the SQL text of the scenario, with a schema index containing an
entry named orders, the table-dependency extractor reports exactly the
dependency orders, and in particular reports none of WHERE, NEW and
SELECT.  The quantified tableIter is the iteration order of the Python
candidate set; any order of a one-element set is that element. -/
theorem claim_C5_reference_exclusion (tableIter : List String → List String)
    (hIter : ∀ l, (tableIter l).Perm l) :
    ∃ deps, extractTableDeps tableIter (some c5SchemaLines) "schema.sql" c5QuerySql c5SchemaIdx
        = Except.ok deps
      ∧ deps.map (fun d => d.table_name) = ["orders"]
      ∧ "WHERE" ∉ deps.map (fun d => d.table_name)
      ∧ "NEW" ∉ deps.map (fun d => d.table_name)
      ∧ "SELECT" ∉ deps.map (fun d => d.table_name) := by
  have hc : tableCandidates c5QuerySql = ["orders"] := by decide
  have hi : tableIter ["orders"] = ["orders"] := List.perm_singleton.mp (hIter ["orders"])
  refine ⟨[⟨"orders", ⟨1, 1⟩, "schema.sql", "CREATE TABLE orders (id int);"⟩],
    ?_, by decide, by decide, by decide, by decide⟩
  unfold extractTableDeps
  rw [hc, hi]
  decide

/-- Witness for C5 with the identity enumeration of the candidate set. -/
theorem claim_C5_reference_exclusion_witness :
    ∃ deps, extractTableDeps id (some c5SchemaLines) "schema.sql" c5QuerySql c5SchemaIdx
        = Except.ok deps
      ∧ deps.map (fun d => d.table_name) = ["orders"]
      ∧ "WHERE" ∉ deps.map (fun d => d.table_name)
      ∧ "NEW" ∉ deps.map (fun d => d.table_name)
      ∧ "SELECT" ∉ deps.map (fun d => d.table_name) :=
  claim_C5_reference_exclusion id (fun l => List.Perm.refl l)

/-! ## Claim C6: concrete specification-document extraction scenario -/

/-- Specification document of the scenario: a paths section with the
/tasks path, a get method carrying operationId ListTasks, then a
components root section. -/
def c6SpecLines : List String :=
  ["paths:", "  /tasks:", "    get:", "      operationId: ListTasks", "components:"]

/-- C6: the path extractor indexes exactly one entity on the scenario
document, named ListTasks, whose range starts at the /tasks line (line 2)
and ends at line 4, the line immediately before the components line
(line 5). -/
theorem claim_C6_spec_extraction_scenario :
    scanPaths c6SpecLines = [("ListTasks", ⟨"ListTasks", "GET", "/tasks", ⟨2, 4⟩⟩)] := by
  decide

/-! ## Claim C7: concrete generated-source extraction scenario -/

/-- Generated-source file of the scenario. -/
def c7GenLines : List String := ["type Foo struct { A int }", "func Bar() {}"]

/-- Counterexample to C7 as stated: the boilerplate variant of the
generated-source extractor (index_boilerplate, one of the two extractors
the claim covers) indexes only Foo on the scenario file; Bar is not
indexed at all, because its function pattern only recognizes methods with
the literal ServerInterfaceWrapper receiver.  The other variant
(index_generated_file) does index both entities but records no kinds in
its index (its FileIndex maps names to bare ranges). -/
theorem claim_C7_boilerplate_misses_Bar :
    (scanBoilerplate c7GenLines "boilerplate.gen.go").map Prod.fst = ["Foo"]
    ∧ dictGet (scanBoilerplate c7GenLines "boilerplate.gen.go") "Bar" = none := by
  constructor <;> decide

/-- C7 as amended: on the scenario file, index_generated_file indexes
exactly the two entities Foo and Bar with the non-overlapping ranges 1-1
and 2-2 (and no kind information, which its index does not carry), while
index_boilerplate indexes exactly the one entity Foo with kind struct and
range 1-1. -/
theorem claim_C7_generated_extraction_scenario :
    scanGenerated c7GenLines = [("Foo", ⟨1, 1⟩), ("Bar", ⟨2, 2⟩)]
    ∧ (1 : Nat) < 2
    ∧ scanBoilerplate c7GenLines "boilerplate.gen.go"
        = [("Foo", ⟨"struct", "Foo", "boilerplate.gen.go", ⟨1, 1⟩,
            "type Foo struct { A int }"⟩)] := by
  refine ⟨by decide, by decide, by decide⟩

/-! ## Claim C3: persistence round trip -/

theorem dictInsert_forall {α : Type} {P : String × α → Prop} {l : List (String × α)}
    {k : String} {v : α} (hl : ∀ p ∈ l, P p) (hv : P (k, v)) :
    ∀ p ∈ dictInsert l k v, P p := by
  induction l with
  | nil =>
    intro p hp
    simp only [dictInsert, List.mem_singleton] at hp
    subst hp
    exact hv
  | cons q t ih =>
    obtain ⟨k2, w⟩ := q
    intro p hp
    by_cases hk : k2 = k
    · simp only [dictInsert, hk, if_true, List.mem_cons] at hp
      rcases hp with h1 | h2
      · subst h1
        exact hk ▸ hv
      · exact hl p (List.mem_cons_of_mem _ h2)
    · simp only [dictInsert, hk, if_false, List.mem_cons] at hp
      rcases hp with h1 | h2
      · subst h1
        exact hl (k2, w) (List.mem_cons_self _ _)
      · exact ih (fun p hp => hl p (List.mem_cons_of_mem _ hp)) p h2

theorem scanLinesAux_inv {σ : Type} {P : Nat → σ → Prop} (step : Nat → String → σ → σ)
    (hstep : ∀ n l st, P n st → P (n + 1) (step n l st)) :
    ∀ (ls : List String) (n : Nat) (st : σ), P n st →
      P (n + ls.length) (scanLinesAux step ls n st) := by
  intro ls
  induction ls with
  | nil => intro n st h; simpa [scanLinesAux] using h
  | cons l t ih =>
    intro n st h
    have h2 := ih (n + 1) (step n l st) (hstep n l st h)
    have harith : n + 1 + t.length = n + (l :: t).length := by
      simp [List.length_cons]
      omega
    rw [harith] at h2
    exact h2

/-- Round trip for the plain file index of cache_generator.py. -/
theorem loadFileIndex_toDict (idx : FileIndex) : loadFileIndex idx.toDict = idx := by
  obtain ⟨fp, tl, rs⟩ := idx
  unfold FileIndex.toDict loadFileIndex
  simp only [FileIndex.mk.injEq, true_and]
  induction rs with
  | nil => rfl
  | cons p t ih =>
    obtain ⟨nm, a, b⟩ := p
    simpa using ih

theorem loadPathsData_map {fp : String} {tl : Nat} (l : List (String × PathEntry))
    (hl : ∀ p ∈ l, p.2.operation_id = p.1) :
    loadPathsData ⟨fp, tl, l.map (fun p => (p.1, p.2.toDict))⟩ = l := by
  induction l with
  | nil => rfl
  | cons p t ih =>
    obtain ⟨k, oid, m, pa, a, b⟩ := p
    have hk : oid = k := hl _ (List.mem_cons_self _ _)
    subst hk
    have ht := ih (fun q hq => hl q (List.mem_cons_of_mem _ hq))
    unfold loadPathsData at ht ⊢
    simpa [PathEntry.toDict, FileRange.toDict] using ht

theorem loadSchemasData_map {fp : String} {tl : Nat} (l : List (String × SchemaEntry))
    (hl : ∀ p ∈ l, p.2.name = p.1) :
    loadSchemasData ⟨fp, tl, l.map (fun p => (p.1, p.2.toDict))⟩ = l := by
  induction l with
  | cons p t ih =>
    obtain ⟨k, nm, a, b⟩ := p
    have hk : nm = k := hl _ (List.mem_cons_self _ _)
    subst hk
    have ht := ih (fun q hq => hl q (List.mem_cons_of_mem _ hq))
    unfold loadSchemasData at ht ⊢
    simpa [SchemaEntry.toDict, FileRange.toDict] using ht
  | nil => rfl

theorem loadBpData_map {fp : String} {tl : Nat} (l : List (String × BpEntity))
    (hl : ∀ p ∈ l, p.2.name = p.1) :
    loadBpData ⟨fp, tl, l.map (fun p => (p.1, p.2.toDict))⟩ = l := by
  induction l with
  | cons p t ih =>
    obtain ⟨k, ty, nm, f, ⟨a, b⟩, co⟩ := p
    have hk : nm = k := hl _ (List.mem_cons_self _ _)
    subst hk
    have ht := ih (fun q hq => hl q (List.mem_cons_of_mem _ hq))
    unfold loadBpData at ht ⊢
    simpa [BpEntity.toDict, FileRange.toDict] using ht
  | nil => rfl

theorem opScanForId_opId {rs : List String} {ln : Nat} {pa : String} {pl : Nat}
    {m o : String} {e : PathEntry}
    (h : opScanForId rs ln pa pl m = some (o, e)) : e.operation_id = o := by
  induction rs generalizing ln with
  | nil => simp [opScanForId] at h
  | cons l2 rs2 ih =>
    unfold opScanForId at h
    by_cases hb : ((pathKeyName l2).isSome || strStartsWith (pyStrip l2) "components:") = true
    · rw [if_pos hb] at h
      exact absurd h (by simp)
    · rw [if_neg hb] at h
      by_cases hop : strStartsWith (pyStrip l2) "operationId:" = true
      · rw [if_pos hop] at h
        by_cases hne : pyStrip (strDrop (pyStrip l2) 12) ≠ ""
        · rw [if_pos hne] at h
          simp only [Option.some.injEq, Prod.mk.injEq] at h
          rw [← h.2, ← h.1]
        · rw [if_neg hne] at h
          exact absurd h (by simp)
      · rw [if_neg hop] at h
        exact ih h

/-- Key consistency of the paths index: every entry is stored under its
own operation id. -/
theorem scanPaths_key (lines : List String) :
    ∀ p ∈ scanPaths lines, (p.2 : PathEntry).operation_id = p.1 := by
  unfold scanPaths
  have main : ∀ (ls : List String) (n : Nat) (started : Bool)
      (curPath : Option (String × Nat)) (acc : List (String × PathEntry)),
      (∀ p ∈ acc, (p.2 : PathEntry).operation_id = p.1) →
      ∀ p ∈ pathsScanAux ls n started curPath acc, (p.2 : PathEntry).operation_id = p.1 := by
    intro ls
    induction ls with
    | nil => intro n started curPath acc hacc; simpa [pathsScanAux] using hacc
    | cons line rs ih =>
      intro n started curPath acc hacc
      unfold pathsScanAux
      by_cases hs : started = true
      · subst hs
        simp only [Bool.not_true, if_neg (by simp : ¬ (false = true))]
        by_cases hc : strStartsWith (pyStrip line) "components:" = true
        · rw [if_pos hc]
          exact hacc
        · rw [if_neg hc]
          cases hpk : pathKeyName line with
          | some p => exact ih _ _ _ _ hacc
          | none =>
            cases hmk : methodKeyName line with
            | some m =>
              cases hcp : curPath with
              | some ppl =>
                obtain ⟨pp, pl⟩ := ppl
                refine ih _ _ _ _ ?_
                cases hop : opScanForId rs (n + 1) pp pl m with
                | some oe =>
                  obtain ⟨o, e⟩ := oe
                  exact dictInsert_forall hacc (opScanForId_opId hop)
                | none => exact hacc
              | none => exact ih _ _ _ _ hacc
            | none => exact ih _ _ _ _ hacc
      · have hs2 : started = false := by
          cases started
          · rfl
          · exact absurd rfl hs
        subst hs2
        simp only [Bool.not_false, if_pos rfl]
        by_cases hp : pyStrip line = "paths:"
        · rw [if_pos hp]
          exact ih _ _ _ _ hacc
        · rw [if_neg hp]
          exact ih _ _ _ _ hacc
  exact main lines 1 false none [] (by simp)

/-- Key consistency of the boilerplate index: every entity is stored
under its own name. -/
theorem scanBoilerplate_key (lines : List String) (f : String) :
    ∀ p ∈ scanBoilerplate lines f, (p.2 : BpEntity).name = p.1 := by
  unfold scanBoilerplate
  have hstep : ∀ (n : Nat) (l : String) (st : BpScanState),
      (∀ p ∈ st.entities, (p.2 : BpEntity).name = p.1) →
      (∀ p ∈ (bpStep lines f n l st).entities, (p.2 : BpEntity).name = p.1) := by
    intro n l st hst
    unfold bpStep
    dsimp only
    repeat' split
    all_goals dsimp only
    all_goals first
      | exact hst
      | exact dictInsert_forall hst rfl
  have base := scanLinesAux_inv
    (P := fun _ st => ∀ p ∈ st.entities, (p.2 : BpEntity).name = p.1)
    (bpStep lines f) (fun n l st h => hstep n l st h) lines 1 ⟨[], none, 0⟩ (by simp)
  cases hcur : (scanLinesAux (bpStep lines f) lines 1 ⟨[], none, 0⟩).cur with
  | some cts =>
    obtain ⟨c, ty, s⟩ := cts
    simp only [hcur]
    exact dictInsert_forall base rfl
  | none =>
    simp only [hcur]
    exact base

/-- C3: for every index produced by any extractor and saved through the
serialized dictionary form, loading the saved artifact reproduces the
index exactly (names, kinds, ranges, and all other recorded fields): the
plain FileIndex of the SQL generator round-trips for arbitrary indices,
and the three artifacts of the API generator round-trip for the indices
the extractors produce. -/
theorem claim_C3_round_trip :
    (∀ idx : FileIndex, loadFileIndex idx.toDict = idx)
    ∧ (∀ lines fp tl, loadPathsData
        ⟨fp, tl, (scanPaths lines).map (fun p => (p.1, p.2.toDict))⟩ = scanPaths lines)
    ∧ (∀ (lines : List String) (fp : String) (tl : Nat), loadSchemasData
        ⟨fp, tl, ((scanSchemasYaml lines).map
            (fun p => (p.1, (⟨p.1, p.2⟩ : SchemaEntry)))).map (fun p => (p.1, p.2.toDict))⟩
          = (scanSchemasYaml lines).map (fun p => (p.1, (⟨p.1, p.2⟩ : SchemaEntry))))
    ∧ (∀ lines f fp tl, loadBpData
        ⟨fp, tl, (scanBoilerplate lines f).map (fun p => (p.1, p.2.toDict))⟩
          = scanBoilerplate lines f) := by
  refine ⟨loadFileIndex_toDict, ?_, ?_, ?_⟩
  · intro lines fp tl
    exact loadPathsData_map _ (scanPaths_key lines)
  · intro lines fp tl
    refine loadSchemasData_map _ ?_
    intro p hp
    obtain ⟨q, hq, hqe⟩ := List.mem_map.mp hp
    rw [← hqe]
  · intro lines f fp tl
    exact loadBpData_map _ (scanBoilerplate_key lines f)

/-! ## Claim C4: range validity of every extractor -/

/-- Validity of a set of ranges against a total line count: 1-based,
inclusive, ordered, within the file. -/
def rvb (m : Nat) (rs : List (String × FileRange)) : Prop :=
  ∀ p ∈ rs, 1 ≤ (p.2 : FileRange).start_line
    ∧ (p.2 : FileRange).start_line ≤ (p.2 : FileRange).end_line
    ∧ (p.2 : FileRange).end_line ≤ m

theorem rvb_mono {m m2 : Nat} (hm : m ≤ m2) {rs : List (String × FileRange)}
    (h : rvb m rs) : rvb m2 rs := by
  intro p hp
  obtain ⟨a1, a2, a3⟩ := h p hp
  exact ⟨a1, a2, by omega⟩

theorem rvb_insert {m : Nat} {rs : List (String × FileRange)} (h : rvb m rs)
    {k : String} {a b : Nat} (h1 : 1 ≤ a) (hab : a ≤ b) (hbm : b ≤ m) :
    rvb m (dictInsert rs k ⟨a, b⟩) :=
  dictInsert_forall h ⟨h1, hab, hbm⟩

/-- Scan invariant of the name-range scanners: after processing lines up
to n - 1, every recorded range is valid against n - 1 and any open entity
started in the processed region. -/
def stInvN (n : Nat) (st : NameScanState) : Prop :=
  rvb (n - 1) st.ranges ∧ (∀ c s, st.cur = some (c, s) → 1 ≤ s ∧ s ≤ n - 1)

theorem stInvN_schemaOpen {n : Nat} {st : NameScanState} {nm : String}
    (hn : 1 ≤ n) (h : stInvN n st) : stInvN (n + 1) (schemaOpen st nm n) := by
  obtain ⟨hr, hc⟩ := h
  unfold schemaOpen
  cases hcur : st.cur with
  | some cs =>
    obtain ⟨c, s⟩ := cs
    obtain ⟨hs1, hs2⟩ := hc c s hcur
    constructor
    · dsimp only
      refine dictInsert_forall (fun p hp => ?_) ?_
      · obtain ⟨a1, a2, a3⟩ := hr p hp
        exact ⟨a1, a2, by omega⟩
      · show 1 ≤ s ∧ s ≤ n - 1 ∧ n - 1 ≤ n + 1 - 1
        exact ⟨hs1, by omega, by omega⟩
    · intro c2 s2 h2
      dsimp only at h2
      simp only [Option.some.injEq, Prod.mk.injEq] at h2
      omega
  | none =>
    constructor
    · dsimp only
      exact rvb_mono (by omega) hr
    · intro c2 s2 h2
      dsimp only at h2
      simp only [Option.some.injEq, Prod.mk.injEq] at h2
      omega

theorem stInvN_schemaStep {n : Nat} {l : String} {st : NameScanState}
    (hn : 1 ≤ n) (h : stInvN n st) : stInvN (n + 1) (schemaStep n l st) := by
  unfold schemaStep
  cases matchCreateTable l with
  | some nm => exact stInvN_schemaOpen hn h
  | none =>
  cases matchCreateType l with
  | some nm => exact stInvN_schemaOpen hn h
  | none =>
  cases matchCreateFunction l with
  | some nm => exact stInvN_schemaOpen hn h
  | none =>
    obtain ⟨hr, hc⟩ := h
    cases hcur : st.cur with
    | some cs =>
      obtain ⟨c, s⟩ := cs
      obtain ⟨hs1, hs2⟩ := hc c s hcur
      dsimp only
      by_cases hsemi : strStartsWith (pyStrip l) ";" = true
      · rw [if_pos hsemi]
        constructor
        · refine dictInsert_forall (fun p hp => ?_) ?_
          · obtain ⟨a1, a2, a3⟩ := hr p hp
            exact ⟨a1, a2, by omega⟩
          · show 1 ≤ s ∧ s ≤ n ∧ n ≤ n + 1 - 1
            exact ⟨hs1, by omega, by omega⟩
        · intro c2 s2 h2
          simp at h2
      · rw [if_neg hsemi]
        refine ⟨rvb_mono (by omega) hr, ?_⟩
        intro c2 s2 h2
        rw [hcur] at h2
        simp only [Option.some.injEq, Prod.mk.injEq] at h2
        obtain ⟨-, h4⟩ := h2
        omega
    | none =>
      refine ⟨rvb_mono (by omega) hr, ?_⟩
      intro c2 s2 h2
      rw [hcur] at h2
      simp at h2

theorem stInvN_queryStep {n : Nat} {l : String} {st : NameScanState}
    (hn : 1 ≤ n) (h : stInvN n st) : stInvN (n + 1) (queryStep n l st) := by
  obtain ⟨hr, hc⟩ := h
  unfold queryStep
  cases matchQueryMarker l with
  | some nw =>
    obtain ⟨nm, w⟩ := nw
    cases hcur : st.cur with
    | some cs =>
      obtain ⟨c, s⟩ := cs
      obtain ⟨hs1, hs2⟩ := hc c s hcur
      constructor
      · dsimp only
        refine dictInsert_forall (fun p hp => ?_) ?_
        · obtain ⟨a1, a2, a3⟩ := hr p hp
          exact ⟨a1, a2, by omega⟩
        · show 1 ≤ s ∧ s ≤ n - 1 ∧ n - 1 ≤ n + 1 - 1
          exact ⟨hs1, by omega, by omega⟩
      · intro c2 s2 h2
        dsimp only at h2
        simp only [Option.some.injEq, Prod.mk.injEq] at h2
        omega
    | none =>
      constructor
      · dsimp only
        exact rvb_mono (by omega) hr
      · intro c2 s2 h2
        dsimp only at h2
        simp only [Option.some.injEq, Prod.mk.injEq] at h2
        omega
  | none =>
    refine ⟨rvb_mono (by omega) hr, ?_⟩
    intro c2 s2 h2
    obtain ⟨hs3, hs4⟩ := hc c2 s2 h2
    omega

/-- Scan invariant for the generated-source scanner (the brace counter
is irrelevant to range validity). -/
def stInvG (n : Nat) (st : GenScanState) : Prop :=
  rvb (n - 1) st.ranges ∧ (∀ c s, st.cur = some (c, s) → 1 ≤ s ∧ s ≤ n - 1)

theorem stInvG_genStep {n : Nat} {l : String} {st : GenScanState}
    (hn : 1 ≤ n) (h : stInvG n st) : stInvG (n + 1) (genStep n l st) := by
  obtain ⟨hr, hc⟩ := h
  have hclose : ∀ c s, st.cur = some (c, s) →
      rvb n (dictInsert st.ranges c ⟨s, n - 1⟩) := by
    intro c s hcur
    obtain ⟨hs1, hs2⟩ := hc c s hcur
    refine dictInsert_forall (fun p hp => ?_) ?_
    · obtain ⟨a1, a2, a3⟩ := hr p hp
      exact ⟨a1, a2, by omega⟩
    · show 1 ≤ s ∧ s ≤ n - 1 ∧ n - 1 ≤ n
      exact ⟨hs1, by omega, by omega⟩
  have hkeep : rvb n st.ranges := rvb_mono (by omega) hr
  have hcur2 : ∀ (nm : String) (r : List (String × FileRange)) (b : Int), rvb n r →
      stInvG (n + 1) ⟨r, some (nm, n), b⟩ := by
    intro nm r b hrv
    refine ⟨by simpa using hrv, ?_⟩
    intro c2 s2 h2
    simp only [Option.some.injEq, Prod.mk.injEq] at h2
    omega
  have hcondClose : ∀ (nm : String) (b : Int),
      stInvG (n + 1) ⟨(match st.cur with
        | some (c, s) => if st.brace + braceDelta l = 0
            then dictInsert st.ranges c ⟨s, n - 1⟩ else st.ranges
        | none => st.ranges), some (nm, n), b⟩ := by
    intro nm b
    refine hcur2 nm _ b ?_
    cases hcur : st.cur with
    | some cs =>
      obtain ⟨c, s⟩ := cs
      dsimp only
      by_cases hb : st.brace + braceDelta l = 0
      · rw [if_pos hb]
        exact hclose c s hcur
      · rw [if_neg hb]
        exact hkeep
    | none => exact hkeep
  unfold genStep
  dsimp only
  cases goFuncName (pyStrip l) with
  | some nm =>
    refine hcur2 nm _ (braceDelta l) ?_
    cases hcur : st.cur with
    | some cs =>
      obtain ⟨c, s⟩ := cs
      exact hclose c s hcur
    | none => exact hkeep
  | none =>
  cases goStructName (pyStrip l) with
  | some nm => exact hcondClose nm (braceDelta l)
  | none =>
  cases goInterfaceName (pyStrip l) with
  | some nm => exact hcondClose nm (braceDelta l)
  | none =>
  cases (if strContains (pyStrip l) "struct" || strContains (pyStrip l) "interface"
      then none else goTypeName (pyStrip l)) with
  | some nm => exact hcondClose nm (st.brace + braceDelta l)
  | none =>
    cases hcur : st.cur with
    | some cs =>
      obtain ⟨c, s⟩ := cs
      obtain ⟨hs1, hs2⟩ := hc c s hcur
      dsimp only
      by_cases hcond : (st.brace + braceDelta l = 0 && pyStrip l ≠ ""
          && ¬ strStartsWith (pyStrip l) "//") = true
      · rw [if_pos hcond]
        constructor
        · refine dictInsert_forall (fun p hp => ?_) ?_
          · obtain ⟨a1, a2, a3⟩ := hr p hp
            exact ⟨a1, a2, by omega⟩
          · show 1 ≤ s ∧ s ≤ n ∧ n ≤ n + 1 - 1
            exact ⟨hs1, by omega, by omega⟩
        · intro c2 s2 h2
          simp at h2
      · rw [if_neg hcond]
        refine ⟨hkeep, ?_⟩
        intro c2 s2 h2
        simp only [Option.some.injEq, Prod.mk.injEq] at h2
        omega
    | none =>
      dsimp only
      refine ⟨hkeep, ?_⟩
      intro c2 s2 h2
      simp at h2

/-- Range validity of the schema.sql extractor. -/
theorem scanSchema_valid (lines : List String) : rvb lines.length (scanSchema lines) := by
  unfold scanSchema
  dsimp only
  have base := scanLinesAux_inv (P := fun n st => 1 ≤ n ∧ stInvN n st)
    schemaStep (fun n l st hh => ⟨by omega, stInvN_schemaStep (l := l) hh.1 hh.2⟩) lines 1 ⟨[], none⟩
    ⟨by omega, by intro p hp; simp at hp, by intro c s h2; simp at h2⟩
  obtain ⟨-, hr, hc⟩ := base
  cases hcur : (scanLinesAux schemaStep lines 1 ⟨[], none⟩).cur with
  | some cs =>
    obtain ⟨c, s⟩ := cs
    obtain ⟨hs1, hs2⟩ := hc c s hcur
    refine dictInsert_forall (fun p hp => ?_) ?_
    · obtain ⟨a1, a2, a3⟩ := hr p hp
      exact ⟨a1, a2, by omega⟩
    · show 1 ≤ s ∧ s ≤ lines.length ∧ lines.length ≤ lines.length
      exact ⟨hs1, by omega, by omega⟩
  | none =>
    intro p hp
    obtain ⟨a1, a2, a3⟩ := hr p hp
    exact ⟨a1, a2, by omega⟩

/-- Range validity of the query.sql extractor. -/
theorem scanQuery_valid (lines : List String) : rvb lines.length (scanQuery lines) := by
  unfold scanQuery
  dsimp only
  have base := scanLinesAux_inv (P := fun n st => 1 ≤ n ∧ stInvN n st)
    queryStep (fun n l st hh => ⟨by omega, stInvN_queryStep (l := l) hh.1 hh.2⟩) lines 1 ⟨[], none⟩
    ⟨by omega, by intro p hp; simp at hp, by intro c s h2; simp at h2⟩
  obtain ⟨-, hr, hc⟩ := base
  cases hcur : (scanLinesAux queryStep lines 1 ⟨[], none⟩).cur with
  | some cs =>
    obtain ⟨c, s⟩ := cs
    obtain ⟨hs1, hs2⟩ := hc c s hcur
    refine dictInsert_forall (fun p hp => ?_) ?_
    · obtain ⟨a1, a2, a3⟩ := hr p hp
      exact ⟨a1, a2, by omega⟩
    · show 1 ≤ s ∧ s ≤ lines.length ∧ lines.length ≤ lines.length
      exact ⟨hs1, by omega, by omega⟩
  | none =>
    intro p hp
    obtain ⟨a1, a2, a3⟩ := hr p hp
    exact ⟨a1, a2, by omega⟩

/-- Range validity of the generated-source extractor. -/
theorem scanGenerated_valid (lines : List String) :
    rvb lines.length (scanGenerated lines) := by
  unfold scanGenerated
  dsimp only
  have base := scanLinesAux_inv (P := fun n st => 1 ≤ n ∧ stInvG n st)
    genStep (fun n l st hh => ⟨by omega, stInvG_genStep (l := l) hh.1 hh.2⟩) lines 1 ⟨[], none, 0⟩
    ⟨by omega, by intro p hp; simp at hp, by intro c s h2; simp at h2⟩
  obtain ⟨-, hr, hc⟩ := base
  cases hcur : (scanLinesAux genStep lines 1 ⟨[], none, 0⟩).cur with
  | some cs =>
    obtain ⟨c, s⟩ := cs
    obtain ⟨hs1, hs2⟩ := hc c s hcur
    refine dictInsert_forall (fun p hp => ?_) ?_
    · obtain ⟨a1, a2, a3⟩ := hr p hp
      exact ⟨a1, a2, by omega⟩
    · show 1 ≤ s ∧ s ≤ lines.length ∧ lines.length ≤ lines.length
      exact ⟨hs1, by omega, by omega⟩
  | none =>
    intro p hp
    obtain ⟨a1, a2, a3⟩ := hr p hp
    exact ⟨a1, a2, by omega⟩

theorem opExtendEnd_ge (ls : List String) (cur : Nat) : cur ≤ opExtendEnd ls cur := by
  induction ls generalizing cur with
  | nil => exact Nat.le_refl _
  | cons l t ih =>
    unfold opExtendEnd
    by_cases hb : ((pathKeyName l).isSome || strStartsWith (pyStrip l) "components:") = true
    · rw [if_pos hb]
    · rw [if_neg hb]
      exact Nat.le_trans (Nat.le_succ _) (ih (cur + 1))

theorem opExtendEnd_le (ls : List String) (cur : Nat) :
    opExtendEnd ls cur ≤ cur + ls.length := by
  induction ls generalizing cur with
  | nil => exact Nat.le_refl _
  | cons l t ih =>
    unfold opExtendEnd
    by_cases hb : ((pathKeyName l).isSome || strStartsWith (pyStrip l) "components:") = true
    · rw [if_pos hb]
      exact Nat.le_add_right _ _
    · rw [if_neg hb]
      have := ih (cur + 1)
      simp only [List.length_cons]
      omega

theorem opScanForId_valid {rs : List String} {ln : Nat} {pa : String} {pl : Nat}
    {m o : String} {e : PathEntry} (hpl : 1 ≤ pl)
    (h : opScanForId rs ln pa pl m = some (o, e)) (hln : pl < ln) :
    1 ≤ e.range.start_line ∧ e.range.start_line ≤ e.range.end_line
      ∧ e.range.end_line ≤ ln - 1 + rs.length := by
  induction rs generalizing ln with
  | nil => simp [opScanForId] at h
  | cons l2 rs2 ih =>
    unfold opScanForId at h
    dsimp only at h
    by_cases hb : ((pathKeyName l2).isSome || strStartsWith (pyStrip l2) "components:") = true
    · rw [if_pos hb] at h
      simp at h
    · rw [if_neg hb] at h
      by_cases hop : strStartsWith (pyStrip l2) "operationId:" = true
      · rw [if_pos hop] at h
        by_cases hne : pyStrip (strDrop (pyStrip l2) 12) ≠ ""
        · rw [if_pos hne] at h
          simp only [Option.some.injEq, Prod.mk.injEq] at h
          rw [← h.2]
          have h1 := opExtendEnd_ge rs2 ln
          have h2 := opExtendEnd_le rs2 ln
          refine ⟨hpl, by dsimp only; omega, by dsimp only; simp only [List.length_cons]; omega⟩
        · rw [if_neg hne] at h
          simp at h
      · rw [if_neg hop] at h
        have := ih h (by omega)
        simp only [List.length_cons]
        omega

/-- Validity of path-entry ranges against a total line count. -/
def pvb (m : Nat) (ps : List (String × PathEntry)) : Prop :=
  ∀ p ∈ ps, 1 ≤ (p.2 : PathEntry).range.start_line
    ∧ (p.2 : PathEntry).range.start_line ≤ (p.2 : PathEntry).range.end_line
    ∧ (p.2 : PathEntry).range.end_line ≤ m

theorem pathsScanAux_valid :
    ∀ (ls : List String) (n T : Nat) (started : Bool) (curPath : Option (String × Nat))
      (acc : List (String × PathEntry)),
      1 ≤ n → n + ls.length = T + 1 →
      (∀ q pl, curPath = some (q, pl) → 1 ≤ pl ∧ pl < n) →
      pvb T acc →
      pvb T (pathsScanAux ls n started curPath acc) := by
  intro ls
  induction ls with
  | nil =>
    intro n T started curPath acc hn hlen hcp hacc
    simpa [pathsScanAux] using hacc
  | cons line rs ih =>
    intro n T started curPath acc hn hlen hcp hacc
    have hlen2 : (n + 1) + rs.length = T + 1 := by
      simp only [List.length_cons] at hlen
      omega
    unfold pathsScanAux
    dsimp only
    by_cases hs : started = true
    · subst hs
      simp only [Bool.not_true, if_neg (by simp : ¬ (false = true))]
      by_cases hc : strStartsWith (pyStrip line) "components:" = true
      · rw [if_pos hc]
        exact hacc
      · rw [if_neg hc]
        cases hpk : pathKeyName line with
        | some p =>
          refine ih (n + 1) T true (some (p, n)) acc (by omega) hlen2 ?_ hacc
          intro q pl h2
          simp only [Option.some.injEq, Prod.mk.injEq] at h2
          omega
        | none =>
          cases hmk : methodKeyName line with
          | some m =>
            cases hcp2 : curPath with
            | some ppl =>
              obtain ⟨pp, pl⟩ := ppl
              obtain ⟨hpl1, hpl2⟩ := hcp pp pl hcp2
              refine ih (n + 1) T true (some (pp, pl)) _ (by omega) hlen2
                (by intro q pl2 h2; simp only [Option.some.injEq, Prod.mk.injEq] at h2; omega) ?_
              cases hop : opScanForId rs (n + 1) pp pl m with
              | some oe =>
                obtain ⟨o, e⟩ := oe
                have hv := opScanForId_valid hpl1 hop (by omega)
                refine dictInsert_forall hacc ?_
                show 1 ≤ e.range.start_line ∧ e.range.start_line ≤ e.range.end_line
                  ∧ e.range.end_line ≤ T
                refine ⟨hv.1, hv.2.1, ?_⟩
                have := hv.2.2
                omega
              | none => exact hacc
            | none =>
              exact ih (n + 1) T true none acc (by omega) hlen2 (by intro q pl h2; simp at h2) hacc
          | none =>
            refine ih (n + 1) T true curPath acc (by omega) hlen2 ?_ hacc
            intro q pl h2
            obtain ⟨a1, a2⟩ := hcp q pl h2
            omega
    · have hs2 : started = false := by
        cases started
        · rfl
        · exact absurd rfl hs
      subst hs2
      simp only [Bool.not_false, if_pos rfl]
      by_cases hp : pyStrip line = "paths:"
      · rw [if_pos hp]
        refine ih (n + 1) T true curPath acc (by omega) hlen2 ?_ hacc
        intro q pl h2
        obtain ⟨a1, a2⟩ := hcp q pl h2
        omega
      · rw [if_neg hp]
        refine ih (n + 1) T false curPath acc (by omega) hlen2 ?_ hacc
        intro q pl h2
        obtain ⟨a1, a2⟩ := hcp q pl h2
        omega

/-- Range validity of the specification-paths extractor. -/
theorem scanPaths_valid (lines : List String) : pvb lines.length (scanPaths lines) := by
  unfold scanPaths
  refine pathsScanAux_valid lines 1 lines.length false none [] (by omega) (by omega)
    (by intro q pl h2; simp at h2) (by intro p hp; simp at hp)

theorem schemasExtent_bounds :
    ∀ (rs : List String) (nxt endCur : Nat), endCur < nxt →
      endCur ≤ (schemasExtent rs nxt endCur).1
      ∧ (schemasExtent rs nxt endCur).1 ≤ nxt - 1 + rs.length
      ∧ (schemasExtent rs nxt endCur).2 ≤ rs.length := by
  intro rs
  induction rs with
  | nil =>
    intro nxt endCur hlt
    exact ⟨Nat.le_refl _, by simp [schemasExtent]; omega, by simp [schemasExtent]⟩
  | cons l2 rs2 ih =>
    intro nxt endCur hlt
    unfold schemasExtent
    dsimp only
    by_cases h1 : (schemaHeaderName l2).isSome = true
    · rw [if_pos h1]
      refine ⟨Nat.le_refl _, by simp only [List.length_cons]; omega, by simp⟩
    · rw [if_neg h1]
      by_cases h2 : (pyStrip (pyRstripNL l2) ≠ "" && ¬ strStartsWith (pyRstripNL l2) "      "
          && ¬ strStartsWith (pyRstripNL l2) "    ") = true
      · rw [if_pos h2]
        refine ⟨Nat.le_refl _, by simp only [List.length_cons]; omega, by simp⟩
      · rw [if_neg h2]
        obtain ⟨ha, hb, hc⟩ := ih (nxt + 1) nxt (by omega)
        cases hec : schemasExtent rs2 (nxt + 1) nxt with
        | mk e c =>
          rw [hec] at ha hb hc
          dsimp only at ha hb hc ⊢
          refine ⟨by omega, by simp only [List.length_cons]; omega,
            by simp only [List.length_cons]; omega⟩

theorem schemasScanAux_valid :
    ∀ (fuel : Nat) (ls : List String) (n T : Nat) (started : Bool)
      (acc : List (String × FileRange)),
      ls.length ≤ fuel → 1 ≤ n → n + ls.length = T + 1 → rvb T acc →
      rvb T (schemasScanAux fuel ls n started acc) := by
  intro fuel
  induction fuel with
  | zero =>
    intro ls n T started acc hf hn hlen hacc
    cases ls with
    | nil => simpa [schemasScanAux] using hacc
    | cons l t => simp at hf
  | succ fuel ih =>
    intro ls n T started acc hf hn hlen hacc
    cases ls with
    | nil => simpa [schemasScanAux] using hacc
    | cons line rs =>
      have hlen2 : (n + 1) + rs.length = T + 1 := by
        simp only [List.length_cons] at hlen
        omega
      have hf2 : rs.length ≤ fuel := by
        simp only [List.length_cons] at hf
        omega
      unfold schemasScanAux
      by_cases hs : started = true
      · subst hs
        simp only [Bool.not_true, if_neg (by simp : ¬ (false = true))]
        cases hh : schemaHeaderName line with
        | some nm =>
          obtain ⟨ha, hb, hc⟩ := schemasExtent_bounds rs (n + 1) n (by omega)
          cases hec : schemasExtent rs (n + 1) n with
          | mk e c =>
            rw [hec] at ha hb hc
            dsimp only at ha hb hc ⊢
            refine ih (rs.drop c) (n + 1 + c) T true _ ?_ (by omega) ?_ ?_
            · have := List.length_drop c rs
              omega
            · have := List.length_drop c rs
              omega
            · refine dictInsert_forall hacc ?_
              show 1 ≤ n ∧ n ≤ e ∧ e ≤ T
              omega
        | none => exact ih rs (n + 1) T true acc hf2 (by omega) hlen2 hacc
      · have hs2 : started = false := by
          cases started
          · rfl
          · exact absurd rfl hs
        subst hs2
        simp only [Bool.not_false, if_pos rfl]
        by_cases hp : pyStrip line = "schemas:"
        · rw [if_pos hp]
          exact ih rs (n + 1) T true acc hf2 (by omega) hlen2 hacc
        · rw [if_neg hp]
          exact ih rs (n + 1) T false acc hf2 (by omega) hlen2 hacc

/-- Range validity of the specification-schemas extractor. -/
theorem scanSchemasYaml_valid (lines : List String) :
    rvb lines.length (scanSchemasYaml lines) := by
  unfold scanSchemasYaml
  exact schemasScanAux_valid lines.length lines 1 lines.length false []
    (Nat.le_refl _) (by omega) (by omega) (by intro p hp; simp at hp)

/-- Validity of a set of boilerplate entities against a total line count:
1-based, inclusive, ordered, within the file. -/
def bvb (m : Nat) (es : List (String × BpEntity)) : Prop :=
  ∀ p ∈ es, 1 ≤ (p.2 : BpEntity).range.start_line
    ∧ (p.2 : BpEntity).range.start_line ≤ (p.2 : BpEntity).range.end_line
    ∧ (p.2 : BpEntity).range.end_line ≤ m

theorem bvb_mono {m m2 : Nat} (hm : m ≤ m2) {es : List (String × BpEntity)}
    (h : bvb m es) : bvb m2 es := by
  intro p hp
  obtain ⟨a1, a2, a3⟩ := h p hp
  exact ⟨a1, a2, by omega⟩

/-- Closing the open boilerplate entity at line n keeps every range valid
against n. -/
theorem bvb_close {n : Nat} {ents : List (String × BpEntity)}
    (allLines : List String) (file : String) (h : bvb (n - 1) ents)
    {nm ty : String} {s : Nat} (hs1 : 1 ≤ s) (hs2 : s ≤ n - 1) :
    bvb n (bpClosePrev allLines file ents nm ty s n) := by
  unfold bpClosePrev
  refine dictInsert_forall (fun p hp => ?_) ?_
  · obtain ⟨a1, a2, a3⟩ := h p hp
    exact ⟨a1, a2, by omega⟩
  · show 1 ≤ s ∧ s ≤ (if n > s then n - 1 else s) ∧ (if n > s then n - 1 else s) ≤ n
    by_cases hgt : n > s
    · rw [if_pos hgt]
      exact ⟨hs1, by omega, by omega⟩
    · rw [if_neg hgt]
      exact ⟨hs1, by omega, by omega⟩

/-- Scan invariant of the boilerplate scanner: after processing lines up
to n - 1, every recorded range is valid against n - 1 and any open entity
started in the processed region. -/
def stInvB (n : Nat) (st : BpScanState) : Prop :=
  bvb (n - 1) st.entities
  ∧ (∀ c ty s, st.cur = some (c, ty, s) → 1 ≤ s ∧ s ≤ n - 1)

theorem stInvB_bpStep {lines : List String} {f : String} {n : Nat} {l : String}
    {st : BpScanState} (hn : 1 ≤ n) (h : stInvB n st) :
    stInvB (n + 1) (bpStep lines f n l st) := by
  obtain ⟨hr, hc⟩ := h
  have hclose : ∀ c ty s, st.cur = some (c, ty, s) →
      bvb n (bpClosePrev lines f st.entities c ty s n) := by
    intro c ty s hcur
    obtain ⟨hs1, hs2⟩ := hc c ty s hcur
    exact bvb_close lines f hr hs1 hs2
  have hkeep : bvb n st.entities := bvb_mono (by omega) hr
  have hcur2 : ∀ (nm ty : String) (e : List (String × BpEntity)) (b : Int), bvb n e →
      stInvB (n + 1) ⟨e, some (nm, ty, n), b⟩ := by
    intro nm ty e b he
    refine ⟨by simpa using he, ?_⟩
    intro c2 ty2 s2 h2
    simp only [Option.some.injEq, Prod.mk.injEq] at h2
    omega
  have hcondClose : ∀ (nm ty : String) (b : Int),
      stInvB (n + 1) ⟨(match st.cur with
        | some (c, cty, s) => if st.brace + braceDelta l = 0
            then bpClosePrev lines f st.entities c cty s n else st.entities
        | none => st.entities), some (nm, ty, n), b⟩ := by
    intro nm ty b
    refine hcur2 nm ty _ b ?_
    cases hcur : st.cur with
    | some cs =>
      obtain ⟨c, cty, s⟩ := cs
      dsimp only
      by_cases hb : st.brace + braceDelta l = 0
      · rw [if_pos hb]
        exact hclose c cty s hcur
      · rw [if_neg hb]
        exact hkeep
    | none => exact hkeep
  unfold bpStep
  dsimp only
  cases bpFuncName l with
  | some nm =>
    refine hcur2 nm "func" _ (braceDelta l) ?_
    cases hcur : st.cur with
    | some cs =>
      obtain ⟨c, cty, s⟩ := cs
      exact hclose c cty s hcur
    | none => exact hkeep
  | none =>
  cases bpStructName l with
  | some nm => exact hcondClose nm "struct" (braceDelta l)
  | none =>
  cases bpConstVarName l with
  | some knm =>
    obtain ⟨kind, nm⟩ := knm
    exact hcondClose nm kind (st.brace + braceDelta l)
  | none =>
  simp only [Option.isSome_none, Bool.false_eq_true, if_false]
  cases bpTypeName l with
  | some nm => exact hcondClose nm "type" (st.brace + braceDelta l)
  | none =>
    cases hcur : st.cur with
    | some cs =>
      obtain ⟨c, cty, s⟩ := cs
      obtain ⟨hs1, hs2⟩ := hc c cty s hcur
      dsimp only
      by_cases hcond : (st.brace + braceDelta l = 0 && pyStrip l ≠ ""
          && ¬ strStartsWith (pyStrip l) "//") = true
      · rw [if_pos hcond]
        refine ⟨?_, ?_⟩
        · simpa using hclose c cty s hcur
        · intro c2 ty2 s2 h2
          simp at h2
      · rw [if_neg hcond]
        refine ⟨hkeep, ?_⟩
        intro c2 ty2 s2 h2
        simp only [Option.some.injEq, Prod.mk.injEq] at h2
        omega
    | none =>
      dsimp only
      refine ⟨hkeep, ?_⟩
      intro c2 ty2 s2 h2
      simp at h2

/-- Range validity of the boilerplate extractor. -/
theorem scanBoilerplate_valid (lines : List String) (f : String) :
    bvb lines.length (scanBoilerplate lines f) := by
  unfold scanBoilerplate
  dsimp only
  have base := scanLinesAux_inv (P := fun n st => 1 ≤ n ∧ stInvB n st)
    (bpStep lines f) (fun n l st hh => ⟨by omega, stInvB_bpStep hh.1 hh.2⟩)
    lines 1 ⟨[], none, 0⟩
    ⟨by omega, by intro p hp; simp at hp, by intro c ty s h2; simp at h2⟩
  obtain ⟨-, hr, hc⟩ := base
  cases hcur : (scanLinesAux (bpStep lines f) lines 1 ⟨[], none, 0⟩).cur with
  | some cs =>
    obtain ⟨c, ty, s⟩ := cs
    obtain ⟨hs1, hs2⟩ := hc c ty s hcur
    refine dictInsert_forall (fun p hp => ?_) ?_
    · obtain ⟨a1, a2, a3⟩ := hr p hp
      exact ⟨a1, a2, by omega⟩
    · show 1 ≤ s ∧ s ≤ lines.length ∧ lines.length ≤ lines.length
      exact ⟨hs1, by omega, by omega⟩
  | none =>
    intro p hp
    obtain ⟨a1, a2, a3⟩ := hr p hp
    exact ⟨a1, a2, by omega⟩

/-- C4: every entity produced by any of the six extractors (SQL schema,
SQL queries, generated source, boilerplate, specification paths,
specification schemas) has a line range satisfying 1 le start, start le
end, end le total lines of the file it was extracted from. -/
theorem claim_C4_range_validity (lines : List String) (f : String) :
    rvb lines.length (scanSchema lines)
    ∧ rvb lines.length (scanQuery lines)
    ∧ rvb lines.length (scanGenerated lines)
    ∧ pvb lines.length (scanPaths lines)
    ∧ rvb lines.length (scanSchemasYaml lines)
    ∧ bvb lines.length (scanBoilerplate lines f) :=
  ⟨scanSchema_valid lines, scanQuery_valid lines, scanGenerated_valid lines,
   scanPaths_valid lines, scanSchemasYaml_valid lines, scanBoilerplate_valid lines f⟩

/-! ## Claim C9: runs without generated-source input -/

/-- Concrete digest function used by concrete counterexamples and
witnesses (any function of the content works, since the programs only
compare digests for equality). -/
def modelHash : List String → String := fun ls => String.intercalate "\n" ls

theorem dictGet_mem {α : Type} {l : List (String × α)} {k : String} {v : α}
    (h : dictGet l k = some v) : (k, v) ∈ l := by
  induction l with
  | nil => simp [dictGet] at h
  | cons p t ih =>
    obtain ⟨k2, w⟩ := p
    by_cases hk : k2 = k
    · subst hk
      simp only [dictGet, if_true] at h
      injection h with h2
      rw [← h2]
      exact List.mem_cons_self _ _
    · simp only [dictGet, hk, if_false] at h
      exact List.mem_cons_of_mem _ (ih h)

theorem genLoop_noop (h : List String → String) (fs : List (String × List String))
    (fsl : List (String × String))
    (hmiss : ∀ kp ∈ fsl, dictGet fs (kp : String × String).2 = none) :
    ∀ acc : GenLoopAcc, fsl.foldl (genLoopStep h fs) acc = acc := by
  induction fsl with
  | nil => intro acc; rfl
  | cons kp t ih =>
    intro acc
    rw [List.foldl_cons]
    have hstep : genLoopStep h fs acc kp = acc := by
      unfold genLoopStep
      rw [hmiss kp (List.mem_cons_self _ _)]
    rw [hstep]
    exact ih (fun q hq => hmiss q (List.mem_cons_of_mem _ hq)) acc

theorem extractGeneratedCode_missing (fs : List (String × List String))
    (gcfg : List (String × String)) (qn : String) (gis : List (String × FileIndex))
    (hq : (dictGet gcfg "query_sql_go").isSome)
    (hm : (dictGet gcfg "models_sql_go").isSome)
    (hmiss : ∀ kp ∈ gcfg, dictGet fs (kp : String × String).2 = none) :
    extractGeneratedCode fs gcfg qn gis = Except.ok [] := by
  obtain ⟨pq, hpq⟩ := Option.isSome_iff_exists.mp hq
  obtain ⟨pm, hpm⟩ := Option.isSome_iff_exists.mp hm
  simp only [extractGeneratedCode, hpq, hpm, hmiss _ (dictGet_mem hpq),
    hmiss _ (dictGet_mem hpm), bind, Except.bind]
  rfl

theorem cacheFold_names (g : String → FileRange → Except Unit QueryCache)
    (hg : ∀ qn qr, ∃ c, g qn qr = Except.ok c ∧ c.generated_code = []) :
    ∀ (rl : List (String × FileRange)) (acc : List (String × QueryCache)),
      ((rl.foldl (fun a p => match g p.1 p.2 with
          | .ok c => a ++ [(p.1 ++ ".cache.json", c)]
          | .error _ => a) acc).map Prod.fst
        = acc.map Prod.fst ++ rl.map (fun p => p.1 ++ ".cache.json"))
      ∧ (∀ q ∈ rl.foldl (fun a p => match g p.1 p.2 with
          | .ok c => a ++ [(p.1 ++ ".cache.json", c)]
          | .error _ => a) acc, q ∈ acc ∨ (q.2 : QueryCache).generated_code = []) := by
  intro rl
  induction rl with
  | nil =>
    intro acc
    exact ⟨by simp, fun q hq => Or.inl hq⟩
  | cons x xs ih =>
    intro acc
    obtain ⟨c, hc, hgc⟩ := hg x.1 x.2
    rw [List.foldl_cons]
    have hx : (match g x.1 x.2 with
        | .ok c => acc ++ [(x.1 ++ ".cache.json", c)]
        | .error _ => acc) = acc ++ [(x.1 ++ ".cache.json", c)] := by
      rw [hc]
    rw [hx]
    obtain ⟨ih1, ih2⟩ := ih (acc ++ [(x.1 ++ ".cache.json", c)])
    constructor
    · rw [ih1]
      simp [List.append_assoc]
    · intro q hq
      rcases ih2 q hq with hin | hgen
      · rcases List.mem_append.mp hin with hin2 | hin3
        · exact Or.inl hin2
        · right
          simp only [List.mem_singleton] at hin3
          rw [hin3]
          exact hgc
      · exact Or.inr hgen

/-! ## Claim C8: deduplication and ordering of resolved references -/

/-- First-occurrence deduplication of a list of names, written with the
same seen-set operations the source uses (this is the specification-side
notion of first-seen order). -/
def dkfGo : List String → List String → List String
  | _, [] => []
  | seen, x :: xs => if seen.contains x then dkfGo seen xs else x :: dkfGo (setAdd seen x) xs

/-- First-occurrence deduplication starting from an empty seen set. -/
def dedupKeepFirst (l : List String) : List String := dkfGo [] l

theorem foldlM_except_ok {α β ε : Type} (f : β → α → Except ε β) (g : β → α → β)
    (h : ∀ b a, f b a = Except.ok (g b a)) :
    ∀ (l : List α) (b : β), l.foldlM f b = Except.ok (l.foldl g b) := by
  intro l
  induction l with
  | nil => intro b; rfl
  | cons x xs ih =>
    intro b
    rw [List.foldlM_cons, h b x]
    show xs.foldlM f (g b x) = _
    rw [ih (g b x), List.foldl_cons]

/-- Pure step of the schema-dependency fold once the spec file is known to
exist. -/
def schemaDepStep (L : List String) (specRel : String)
    (schemaIdx : List (String × SchemaEntry)) :
    (List String × List SchemaDepRec) → String → (List String × List SchemaDepRec) :=
  fun acc m =>
    if acc.1.contains m then acc
    else
      match dictGet schemaIdx m with
      | some entry =>
        (setAdd acc.1 m, acc.2 ++ [⟨m, entry.range.toDict, specRel, readRangeStr L entry.range⟩])
      | none => (setAdd acc.1 m, acc.2)

theorem schemaDeps_foldl_char (L : List String) (specRel : String)
    (schemaIdx : List (String × SchemaEntry)) :
    ∀ (refs seen : List String) (deps : List SchemaDepRec),
      (refs.foldl (schemaDepStep L specRel schemaIdx) (seen, deps)).2
        = deps ++ (dkfGo seen refs).filterMap (fun n => (dictGet schemaIdx n).map
            (fun entry => (⟨n, entry.range.toDict, specRel,
              readRangeStr L entry.range⟩ : SchemaDepRec))) := by
  intro refs
  induction refs with
  | nil => intro seen deps; simp [dkfGo]
  | cons x xs ih =>
    intro seen deps
    rw [List.foldl_cons]
    by_cases hc : seen.contains x = true
    · have hstep : schemaDepStep L specRel schemaIdx (seen, deps) x = (seen, deps) := by
        unfold schemaDepStep
        rw [if_pos hc]
      rw [hstep, ih seen deps]
      simp only [dkfGo]
      rw [if_pos hc]
    · cases hidx : dictGet schemaIdx x with
      | some entry =>
        have hstep : schemaDepStep L specRel schemaIdx (seen, deps) x
            = (setAdd seen x, deps
                ++ [⟨x, entry.range.toDict, specRel, readRangeStr L entry.range⟩]) := by
          unfold schemaDepStep
          rw [if_neg hc, hidx]
        rw [hstep, ih]
        simp only [dkfGo]
        rw [if_neg hc]
        simp [List.filterMap_cons, hidx, List.append_assoc]
      | none =>
        have hstep : schemaDepStep L specRel schemaIdx (seen, deps) x
            = (setAdd seen x, deps) := by
          unfold schemaDepStep
          rw [if_neg hc, hidx]
        rw [hstep, ih]
        simp only [dkfGo]
        rw [if_neg hc]
        simp [List.filterMap_cons, hidx]

theorem filterMap_dep_names (schemaIdx : List (String × SchemaEntry))
    (mk : String → SchemaEntry → SchemaDepRec) (hmk : ∀ n e, (mk n e).name = n) :
    ∀ l : List String,
      (l.filterMap (fun n => (dictGet schemaIdx n).map (mk n))).map (fun d => d.name)
        = l.filter (fun n => (dictGet schemaIdx n).isSome) := by
  intro l
  induction l with
  | nil => rfl
  | cons x xs ih =>
    cases hidx : dictGet schemaIdx x with
    | some entry => simp [List.filterMap_cons, List.filter_cons, hidx, hmk, ih]
    | none => simp [List.filterMap_cons, List.filter_cons, hidx, ih]

/-- Characterization of _extract_schema_dependencies when the spec file
exists: it never fails, and the dependency names are exactly the schema
pointers of the block in first-occurrence order, deduplicated, restricted
to names present in the schema index. -/
theorem extractSchemaDeps_firstSeen (L : List String) (specRel opBlock : String)
    (schemaIdx : List (String × SchemaEntry)) :
    ∃ deps, extractSchemaDeps (some L) specRel opBlock schemaIdx = Except.ok deps
      ∧ deps.map (fun d => d.name)
          = (dedupKeepFirst (findSchemaRefs opBlock.data)).filter
              (fun n => (dictGet schemaIdx n).isSome) := by
  have hfold := foldlM_except_ok
    (fun (acc : List String × List SchemaDepRec) m =>
      if acc.1.contains m then Except.ok acc
      else
        let seen2 := setAdd acc.1 m
        match dictGet schemaIdx m with
        | some entry =>
          match (some L : Option (List String)) with
          | some lines =>
            Except.ok (seen2,
              acc.2 ++ [⟨m, entry.range.toDict, specRel, readRangeStr lines entry.range⟩])
          | none => Except.error ()
        | none => Except.ok (seen2, acc.2))
    (schemaDepStep L specRel schemaIdx)
    (by
      intro b a
      dsimp only
      unfold schemaDepStep
      by_cases hc : b.1.contains a = true
      · rw [if_pos hc, if_pos hc]
      · rw [if_neg hc, if_neg hc]
        cases hidx : dictGet schemaIdx a with
        | some entry => rfl
        | none => rfl)
    (findSchemaRefs opBlock.data) ([], [])
  refine ⟨((findSchemaRefs opBlock.data).foldl
      (schemaDepStep L specRel schemaIdx) ([], [])).2, ?_, ?_⟩
  · unfold extractSchemaDeps
    rw [hfold]
    rfl
  · rw [schemaDeps_foldl_char]
    unfold dedupKeepFirst
    rw [List.nil_append]
    exact filterMap_dep_names schemaIdx _ (fun n e => rfl) _

/-- Pure step of the table-dependency fold once the schema file is known
to exist. -/
def tableDepStep (L : List String) (schemaRel : String) (schemaIdx : FileIndex) :
    List TableDependency → String → List TableDependency :=
  fun deps tn =>
    match dictGet schemaIdx.ranges tn with
    | some r =>
      match readRangeContent L r with
      | some sql => deps ++ [⟨tn, r, schemaRel, sql⟩]
      | none => deps
    | none => deps

theorem readRangeContent_isSome (lines : List String) (r : FileRange) :
    (readRangeContent lines r).isSome := by
  unfold readRangeContent readFileLinesOpt pyRangeList
  by_cases hc : r.start_line - 1 ≤ min r.end_line lines.length
  · rw [readIdxList_inbounds lines _ _ (by omega)]
    rfl
  · have h0 : min r.end_line lines.length - (r.start_line - 1) = 0 := by omega
    rw [h0]
    rfl

theorem tableDeps_foldl_names (L : List String) (schemaRel : String)
    (schemaIdx : FileIndex) :
    ∀ (cands : List String) (deps : List TableDependency),
      (cands.foldl (tableDepStep L schemaRel schemaIdx) deps).map (fun d => d.table_name)
        = deps.map (fun d => d.table_name)
          ++ cands.filter (fun tn => (dictGet schemaIdx.ranges tn).isSome) := by
  intro cands
  induction cands with
  | nil => intro deps; simp
  | cons x xs ih =>
    intro deps
    rw [List.foldl_cons]
    cases hidx : dictGet schemaIdx.ranges x with
    | some r =>
      cases hrc : readRangeContent L r with
      | some sql =>
        have hstep : tableDepStep L schemaRel schemaIdx deps x
            = deps ++ [⟨x, r, schemaRel, sql⟩] := by
          unfold tableDepStep
          rw [hidx]
          dsimp only
          rw [hrc]
        rw [hstep, ih]
        simp [List.filter_cons, hidx, List.append_assoc]
      | none =>
        have := readRangeContent_isSome L r
        rw [hrc] at this
        simp at this
    | none =>
      have hstep : tableDepStep L schemaRel schemaIdx deps x = deps := by
        unfold tableDepStep
        rw [hidx]
      rw [hstep, ih]
      simp [List.filter_cons, hidx]

/-- Characterization of extract_table_dependencies when the schema file
exists: it never fails, and the dependency names are the enumeration of
the deduplicated candidate set restricted to tables present in the schema
index, in whatever order the set enumeration yields. -/
theorem extractTableDeps_char (tableIter : List String → List String)
    (L : List String) (schemaRel querySql : String) (schemaIdx : FileIndex) :
    ∃ deps, extractTableDeps tableIter (some L) schemaRel querySql schemaIdx = Except.ok deps
      ∧ deps.map (fun d => d.table_name)
          = (tableIter (tableCandidates querySql)).filter
              (fun tn => (dictGet schemaIdx.ranges tn).isSome) := by
  have hfold := foldlM_except_ok
    (fun (deps : List TableDependency) tn =>
      match dictGet schemaIdx.ranges tn with
      | some r =>
        match (some L : Option (List String)) with
        | some lines =>
          match readRangeContent lines r with
          | some sql => Except.ok (deps ++ [⟨tn, r, schemaRel, sql⟩])
          | none => Except.error ()
        | none => Except.error ()
      | none => Except.ok deps)
    (tableDepStep L schemaRel schemaIdx)
    (by
      intro b a
      dsimp only
      unfold tableDepStep
      cases hidx : dictGet schemaIdx.ranges a with
      | some r =>
        dsimp only
        cases hrc : readRangeContent L r with
        | some sql => rfl
        | none =>
          have := readRangeContent_isSome L r
          rw [hrc] at this
          simp at this
      | none => rfl)
    (tableIter (tableCandidates querySql)) []
  refine ⟨(tableIter (tableCandidates querySql)).foldl
      (tableDepStep L schemaRel schemaIdx) [], ?_, ?_⟩
  · unfold extractTableDeps
    rw [hfold]
  · rw [tableDeps_foldl_names]
    rfl

/-- C9 as amended: a fresh run whose configured generated-source files are
all absent from disk (with the two generated keys present in the
configuration and distinct schema and query paths, both existing)
completes and produces exactly one unit-cache artifact per indexed query,
each with an empty generated-code list. -/
theorem claim_C9_missing_generated_files (h : List String → String)
    (tableIter : List String → List String) (cfg : SqlConfig)
    (fs : List (String × List String)) (sl ql : List String)
    (hsf : dictGet fs cfg.schema_file = some sl)
    (hqf : dictGet fs cfg.query_file = some ql)
    (hne : cfg.query_file ≠ cfg.schema_file)
    (hq : (dictGet cfg.generated "query_sql_go").isSome)
    (hm : (dictGet cfg.generated "models_sql_go").isSome)
    (hmiss : ∀ kp ∈ cfg.generated, dictGet fs (kp : String × String).2 = none) :
    ((runSql h tableIter cfg ⟨fs, [], [], []⟩).2).map Prod.fst
        = (scanQuery ql).map (fun p => p.1 ++ ".cache.json")
    ∧ ∀ c ∈ (runSql h tableIter cfg ⟨fs, [], [], []⟩).2,
        (c.2 : QueryCache).generated_code = [] := by
  have hns : cfg.schema_file ≠ cfg.query_file := fun hh => hne hh.symm
  have h1 : indexSchemaFile h fs cfg []
      = (some ⟨cfg.schema_file, sl.length, scanSchema sl⟩, [(cfg.schema_file, h sl)]) := by
    unfold indexSchemaFile shouldUpdateFile
    rw [hsf]
    rfl
  have h2 : indexQueryFile h fs cfg [(cfg.schema_file, h sl)]
      = (some ⟨cfg.query_file, ql.length, scanQuery ql⟩,
         [(cfg.schema_file, h sl), (cfg.query_file, h ql)]) := by
    have hlook : dictGet [(cfg.schema_file, h sl)] cfg.query_file = none := by
      simp [dictGet, hns]
    have hins : dictInsert [(cfg.schema_file, h sl)] cfg.query_file (h ql)
        = [(cfg.schema_file, h sl), (cfg.query_file, h ql)] := by
      simp [dictInsert, hns]
    unfold indexQueryFile shouldUpdateFile
    rw [hqf, hlook]
    dsimp only
    rw [hins]
    rfl
  have hres : sqlResolve h cfg fs [] []
      = ⟨some ⟨cfg.schema_file, sl.length, scanSchema sl⟩,
         some ⟨cfg.query_file, ql.length, scanQuery ql⟩,
         cfg.generated.foldl (genLoadStep
           (dictInsert [("schema.sql.index.json",
              (⟨cfg.schema_file, sl.length, scanSchema sl⟩ : FileIndex).toDict)]
             "query.sql.index.json"
             (⟨cfg.query_file, ql.length, scanQuery ql⟩ : FileIndex).toDict)) [],
         dictInsert [("schema.sql.index.json",
            (⟨cfg.schema_file, sl.length, scanSchema sl⟩ : FileIndex).toDict)]
           "query.sql.index.json"
           (⟨cfg.query_file, ql.length, scanQuery ql⟩ : FileIndex).toDict,
         [(cfg.schema_file, h sl), (cfg.query_file, h ql)]⟩ := by
    unfold sqlResolve
    rw [h1]
    dsimp only
    rw [h2]
    dsimp only
    rw [genLoop_noop h fs cfg.generated hmiss]
    rfl
  have hper : ∀ (qn : String) (qr : FileRange),
      ∃ c, generateQueryCache tableIter fs cfg qn qr
          ⟨cfg.schema_file, sl.length, scanSchema sl⟩
          (cfg.generated.foldl (genLoadStep
            (dictInsert [("schema.sql.index.json",
               (⟨cfg.schema_file, sl.length, scanSchema sl⟩ : FileIndex).toDict)]
              "query.sql.index.json"
              (⟨cfg.query_file, ql.length, scanQuery ql⟩ : FileIndex).toDict)) [])
        = Except.ok c ∧ c.generated_code = [] := by
    intro qn qr
    obtain ⟨tdeps, htd, -⟩ := extractTableDeps_char tableIter sl cfg.schema_file
      (String.intercalate "\n" ((readFileLinesOpt ql qr.start_line qr.end_line).getD []))
      ⟨cfg.schema_file, sl.length, scanSchema sl⟩
    have hrc : readRangeContent ql qr = some (String.intercalate "\n"
        ((readFileLinesOpt ql qr.start_line qr.end_line).getD [])) := by
      have := readRangeContent_isSome ql qr
      unfold readRangeContent at this ⊢
      cases hfl : readFileLinesOpt ql qr.start_line qr.end_line with
      | none => rw [hfl] at this; simp at this
      | some L2 => rfl
    refine ⟨⟨qn, String.intercalate "\n"
        ((readFileLinesOpt ql qr.start_line qr.end_line).getD []), qr, cfg.query_file,
        tdeps, []⟩, ?_, rfl⟩
    unfold generateQueryCache
    rw [hqf]
    dsimp only
    rw [show ∀ (f : List String → Except Unit QueryCache),
      (Except.ok ql >>= f) = f ql from fun f => rfl]
    try dsimp only
    rw [hrc]
    try dsimp only
    rw [show ∀ (s : String) (f : String → Except Unit QueryCache),
      (Except.ok s >>= f) = f s from fun s f => rfl]
    try dsimp only
    rw [hsf, htd]
    try dsimp only
    rw [show ∀ (d : List TableDependency) (f : List TableDependency → Except Unit QueryCache),
      (Except.ok d >>= f) = f d from fun d f => rfl]
    try dsimp only
    rw [extractGeneratedCode_missing fs cfg.generated qn _ hq hm hmiss]
    rfl
  have hfold := cacheFold_names
    (fun qn qr => generateQueryCache tableIter fs cfg qn qr
      ⟨cfg.schema_file, sl.length, scanSchema sl⟩
      (cfg.generated.foldl (genLoadStep
        (dictInsert [("schema.sql.index.json",
           (⟨cfg.schema_file, sl.length, scanSchema sl⟩ : FileIndex).toDict)]
          "query.sql.index.json"
          (⟨cfg.query_file, ql.length, scanQuery ql⟩ : FileIndex).toDict)) []))
    hper (scanQuery ql) []
  constructor
  · show ((runSql h tableIter cfg ⟨fs, [], [], []⟩).2).map Prod.fst = _
    unfold runSql
    dsimp only
    rw [hres]
    dsimp only
    unfold sqlCachePhase
    dsimp only
    exact hfold.1
  · intro c hc
    revert hc
    show c ∈ (runSql h tableIter cfg ⟨fs, [], [], []⟩).2 → _
    unfold runSql
    dsimp only
    rw [hres]
    dsimp only
    unfold sqlCachePhase
    dsimp only
    intro hc
    rcases hfold.2 c hc with hin | hgen
    · simp at hin
    · exact hgen

/-- Query file of the C9 scenarios. -/
def c9QueryLines : List String := ["-- name: GetOne :one", "SELECT * FROM t1"]

/-- Filesystem of the C9 scenarios: schema and query exist, no generated
source file exists. -/
def c9Fs : List (String × List String) :=
  [("schema.sql", ["CREATE TABLE t1 (a int);"]), ("query.sql", c9QueryLines)]

/-- Configuration whose generated section is present but empty: the
generated-source paths are omitted from the configuration. -/
def c9CfgNoGen : SqlConfig := ⟨"schema.sql", "query.sql", []⟩

/-- Configuration with generated paths configured (the files do not exist
in c9Fs). -/
def c9CfgGen : SqlConfig :=
  ⟨"schema.sql", "query.sql", [("query_sql_go", "q.sql.go"), ("models_sql_go", "m.sql.go")]⟩

/-- Counterexample to C9 as stated: with a configuration that omits the
generated-source paths (empty generated section), every per-query cache
generation raises KeyError on the query_sql_go lookup, which the per-unit
handler swallows, so the run completes with NO unit cache artifact at all,
although the query index contains the unit GetOne — not an artifact with
an empty generated-entity list as the claim states.  (If the whole
generated section were absent the run would abort with KeyError even
earlier, also contradicting the claim.) -/
theorem claim_C9_counterexample :
    (runSql modelHash id c9CfgNoGen ⟨c9Fs, [], [], []⟩).2 = []
    ∧ scanQuery c9QueryLines = [("GetOne", ⟨1, 2⟩)] := by
  constructor
  · decide
  · decide

/-- Witness for the amended C9 at concrete inputs. -/
theorem claim_C9_missing_generated_files_witness :
    ((runSql modelHash id c9CfgGen ⟨c9Fs, [], [], []⟩).2).map Prod.fst
        = (scanQuery c9QueryLines).map (fun p => p.1 ++ ".cache.json")
    ∧ ∀ c ∈ (runSql modelHash id c9CfgGen ⟨c9Fs, [], [], []⟩).2,
        (c.2 : QueryCache).generated_code = [] :=
  claim_C9_missing_generated_files modelHash id c9CfgGen c9Fs
    ["CREATE TABLE t1 (a int);"] c9QueryLines (by decide) (by decide) (by decide)
    (by decide) (by decide) (by decide)

theorem setAdd_nodup {l : List String} (h : l.Nodup) (x : String) :
    (setAdd l x).Nodup := by
  unfold setAdd
  by_cases hc : l.contains x = true
  · rw [if_pos hc]
    exact h
  · rw [if_neg hc]
    have hx : x ∉ l := by
      intro hmem
      exact hc (List.elem_eq_true_of_mem hmem)
    simp [List.nodup_append, h, hx]

theorem foldl_pres {α β : Type} {P : β → Prop} (f : β → α → β)
    (h : ∀ b a, P b → P (f b a)) : ∀ (l : List α) (b : β), P b → P (l.foldl f b) := by
  intro l
  induction l with
  | nil => intro b hb; exact hb
  | cons x xs ih => intro b hb; exact ih (f b x) (h b x hb)

/-- The candidate table-name set is duplicate-free. -/
theorem tableCandidates_nodup (querySql : String) : (tableCandidates querySql).Nodup := by
  unfold tableCandidates
  refine foldl_pres _ ?_ _ _ List.nodup_nil
  intro b ks hb
  refine foldl_pres _ ?_ _ _ hb
  intro b2 nm hb2
  by_cases hkw : sqlKeywords.contains (pyUpper (pyStrip nm)) = true
  · rw [if_pos hkw]
    exact hb2
  · rw [if_neg hkw]
    exact setAdd_nodup hb2 _

/-- C8 as amended: schema references of an operation are deduplicated by
name and returned in first-occurrence order of the operation text; SQL
table references of a query are deduplicated (the candidate set is
duplicate-free, hence so are the reported names), but their order is the
enumeration order of a Python set, a permutation of the pattern-major
candidate order with no first-occurrence guarantee. -/
theorem claim_C8_dedup_ordering (tableIter : List String → List String)
    (hIter : ∀ l, (tableIter l).Perm l) (L M : List String)
    (specRel opBlock schemaRel querySql : String)
    (schemaIdx : List (String × SchemaEntry)) (tblIdx : FileIndex) :
    (∃ deps, extractSchemaDeps (some L) specRel opBlock schemaIdx = Except.ok deps
      ∧ deps.map (fun d => d.name)
          = (dedupKeepFirst (findSchemaRefs opBlock.data)).filter
              (fun n => (dictGet schemaIdx n).isSome))
    ∧ (∃ deps, extractTableDeps tableIter (some M) schemaRel querySql tblIdx = Except.ok deps
      ∧ (deps.map (fun d => d.table_name)).Perm
          ((tableCandidates querySql).filter
            (fun tn => (dictGet tblIdx.ranges tn).isSome))
      ∧ (deps.map (fun d => d.table_name)).Nodup) := by
  refine ⟨extractSchemaDeps_firstSeen L specRel opBlock schemaIdx, ?_⟩
  obtain ⟨deps, heq, hnames⟩ := extractTableDeps_char tableIter M schemaRel querySql tblIdx
  refine ⟨deps, heq, ?_, ?_⟩
  · rw [hnames]
    exact (hIter (tableCandidates querySql)).filter _
  · rw [hnames]
    exact List.Nodup.filter _ ((hIter (tableCandidates querySql)).nodup_iff.mpr
      (tableCandidates_nodup querySql))

/-- Witness for C8 at concrete inputs with the identity enumeration. -/
theorem claim_C8_dedup_ordering_witness :
    (∃ deps, extractSchemaDeps (some ["    Task:", "      type: object"]) "taskflow.yaml"
        "ref: '#/components/schemas/Task'" [("Task", ⟨"Task", ⟨1, 2⟩⟩)] = Except.ok deps
      ∧ deps.map (fun d => d.name)
          = (dedupKeepFirst (findSchemaRefs "ref: '#/components/schemas/Task'".data)).filter
              (fun n => (dictGet [("Task", (⟨"Task", ⟨1, 2⟩⟩ : SchemaEntry))] n).isSome))
    ∧ (∃ deps, extractTableDeps id (some c5SchemaLines) "schema.sql" c5QuerySql c5SchemaIdx
        = Except.ok deps
      ∧ (deps.map (fun d => d.table_name)).Perm
          ((tableCandidates c5QuerySql).filter
            (fun tn => (dictGet c5SchemaIdx.ranges tn).isSome))
      ∧ (deps.map (fun d => d.table_name)).Nodup) :=
  ⟨(claim_C8_dedup_ordering id (fun l => List.Perm.refl l) ["    Task:", "      type: object"]
      c5SchemaLines "taskflow.yaml" "ref: '#/components/schemas/Task'" "schema.sql" c5QuerySql
      [("Task", ⟨"Task", ⟨1, 2⟩⟩)] c5SchemaIdx).1,
   (claim_C8_dedup_ordering id (fun l => List.Perm.refl l) ["    Task:", "      type: object"]
      c5SchemaLines "taskflow.yaml" "ref: '#/components/schemas/Task'" "schema.sql" c5QuerySql
      [("Task", ⟨"Task", ⟨1, 2⟩⟩)] c5SchemaIdx).2⟩

/-- SQL text whose first-occurring table reference is t1. -/
def c8QuerySql : String := "INSERT INTO t1 SELECT * FROM t2"

/-- Schema lines and index for the C8 counterexample. -/
def c8SchemaLines : List String :=
  ["CREATE TABLE t1 (a int);", "CREATE TABLE t2 (b int);"]

/-- Schema index with both tables of the counterexample. -/
def c8SchemaIdx : FileIndex := ⟨"schema.sql", 2, [("t1", ⟨1, 1⟩), ("t2", ⟨2, 2⟩)]⟩

/-- Counterexample to C8 as stated: on the query INSERT INTO t1 SELECT *
FROM t2, the table t1 occurs first in the query text (index 12, before t2
at index 29), but the candidate set is populated pattern by pattern (all
FROM captures before all INTO captures), so with the identity enumeration
of the set the extractor reports the dependencies in the order t2, t1 —
not first-occurrence order.  The iteration order of the actual Python
string set is unspecified across processes, so no order is guaranteed. -/
theorem claim_C8_counterexample :
    ∃ deps, extractTableDeps id (some c8SchemaLines) "schema.sql" c8QuerySql c8SchemaIdx
        = Except.ok deps
      ∧ deps.map (fun d => d.table_name) = ["t2", "t1"]
      ∧ firstOccIdx c8QuerySql "t1" = some 12
      ∧ firstOccIdx c8QuerySql "t2" = some 29
      ∧ deps.map (fun d => d.table_name) ≠ ["t1", "t2"] := by
  refine ⟨[⟨"t2", ⟨2, 2⟩, "schema.sql", "CREATE TABLE t2 (b int);"⟩,
           ⟨"t1", ⟨1, 1⟩, "schema.sql", "CREATE TABLE t1 (a int);"⟩],
    by decide, by decide, by decide, by decide, by decide⟩

/-! ## Claim C2: the fingerprint check -/

/-- C2: for every file key and path, both fingerprint checks
(_should_reindex of the API generator and _should_update_file of the SQL
generator) return true and record the current digest under the key when
the current digest differs from the stored one or none is stored; return
false leaving the table unchanged when they coincide; and emit a
diagnostic, return false and leave the table unchanged when the file does
not exist. -/
theorem claim_C2_fingerprint_check (h : List String → String)
    (fs : List (String × List String)) (hashes : List (String × String))
    (key path : String) :
    (∀ content, dictGet fs path = some content →
      dictGet hashes key ≠ some (h content) →
        shouldUpdateFile h fs hashes path key
            = (true, dictInsert hashes key (h content), [])
        ∧ shouldReindex h fs hashes key path
            = (true, dictInsert hashes key (h content), [])
        ∧ dictGet (dictInsert hashes key (h content)) key = some (h content))
    ∧ (∀ content, dictGet fs path = some content →
      dictGet hashes key = some (h content) →
        shouldUpdateFile h fs hashes path key = (false, hashes, [])
        ∧ shouldReindex h fs hashes key path = (false, hashes, []))
    ∧ (dictGet fs path = none →
        (shouldUpdateFile h fs hashes path key).1 = false
        ∧ (shouldUpdateFile h fs hashes path key).2.1 = hashes
        ∧ (shouldUpdateFile h fs hashes path key).2.2 ≠ []
        ∧ (shouldReindex h fs hashes key path).1 = false
        ∧ (shouldReindex h fs hashes key path).2.1 = hashes
        ∧ (shouldReindex h fs hashes key path).2.2 ≠ []) := by
  refine ⟨?_, ?_, ?_⟩
  · intro content hfs hne
    unfold shouldUpdateFile shouldReindex
    rw [hfs]
    cases hst : dictGet hashes key with
    | none => exact ⟨rfl, rfl, dictGet_dictInsert_self _ _ _⟩
    | some stored =>
      have hsne : ¬ stored = h content := by
        intro hcontra
        exact hne (by rw [hst, hcontra])
      refine ⟨?_, ?_, dictGet_dictInsert_self _ _ _⟩ <;> simp [hsne]
  · intro content hfs hst
    unfold shouldUpdateFile shouldReindex
    rw [hfs, hst]
    simp
  · intro hfs
    unfold shouldUpdateFile shouldReindex
    rw [hfs]
    simp

/-- Witness for C2 at concrete inputs, one per branch of the contract. -/
theorem claim_C2_fingerprint_check_witness :
    shouldUpdateFile (fun ls => String.intercalate "\n" ls) [("f", ["x"])] [] "f" "f"
        = (true, [("f", "x")], [])
    ∧ shouldReindex (fun ls => String.intercalate "\n" ls) [("f", ["x"])] [("f", "x")] "f" "f"
        = (false, [("f", "x")], [])
    ∧ (shouldUpdateFile (fun ls => String.intercalate "\n" ls) [] [("f", "x")] "f" "f").1
        = false :=
  ⟨((claim_C2_fingerprint_check (fun ls => String.intercalate "\n" ls) [("f", ["x"])] []
      "f" "f").1 ["x"] (by decide) (by decide)).1,
   ((claim_C2_fingerprint_check (fun ls => String.intercalate "\n" ls) [("f", ["x"])]
      [("f", "x")] "f" "f").2.1 ["x"] (by decide) (by decide)).2,
   ((claim_C2_fingerprint_check (fun ls => String.intercalate "\n" ls) [] [("f", "x")]
      "f" "f").2.2 (by decide)).1⟩

/-! ## Claim C1: idempotence of a second run -/

/-- Generated-index entry contributed by one configured generated-file
pair when the file exists on disk. -/
def genEntry (h : List String → String) (fs : List (String × List String))
    (kp : String × String) : Option (String × FileIndex) :=
  (dictGet fs kp.2).map (fun c => (kp.1, ⟨kp.2, c.length, scanGenerated c⟩))

theorem dictGet_append_none {α : Type} {a : List (String × α)}
    (b : List (String × α)) {k : String} (ha : dictGet a k = none) :
    dictGet (a ++ b) k = dictGet b k := by
  induction a with
  | nil => rfl
  | cons p t ih =>
    obtain ⟨k2, v⟩ := p
    simp only [List.cons_append, dictGet] at ha ⊢
    by_cases hk : k2 = k
    · rw [if_pos hk] at ha
      exact absurd ha (by simp)
    · rw [if_neg hk] at ha ⊢
      exact ih ha

theorem dictGet_isSome_of_mem {α : Type} {l : List (String × α)} {k : String} {v : α}
    (hmem : (k, v) ∈ l) : (dictGet l k).isSome := by
  induction l with
  | nil => simp at hmem
  | cons p t ih =>
    obtain ⟨k2, w⟩ := p
    simp only [dictGet]
    by_cases hk : k2 = k
    · rw [if_pos hk]
      rfl
    · rw [if_neg hk]
      rcases List.mem_cons.mp hmem with heq | ht
      · injection heq with h1 h2
        exact absurd h1.symm hk
      · exact ih ht

/-- Characterization of the generated-file indexing loop of generate on a
fingerprint table with no entry for any configured generated path: the gis
entries built, the fingerprint-table effects and the store effects. -/
theorem genLoop_char (h : List String → String) (fs : List (String × List String)) :
    ∀ (gl : List (String × String)) (acc0 : GenLoopAcc),
      (∀ kp ∈ gl, dictGet acc0.hashes (kp : String × String).2 = none) →
      ((gl.map Prod.snd).Nodup) →
      ((gl.map (fun kp => stemIndexName (kp : String × String).2)).Nodup) →
      (gl.foldl (genLoopStep h fs) acc0).gis
          = acc0.gis ++ gl.filterMap (genEntry h fs)
      ∧ (∀ k, (∀ kp ∈ gl, k ≠ (kp : String × String).2) →
          dictGet (gl.foldl (genLoopStep h fs) acc0).hashes k
            = dictGet acc0.hashes k)
      ∧ (∀ kp ∈ gl, ∀ c, dictGet fs (kp : String × String).2 = some c →
          dictGet (gl.foldl (genLoopStep h fs) acc0).hashes kp.2 = some (h c))
      ∧ (∀ n, (∀ kp ∈ gl, n ≠ stemIndexName (kp : String × String).2) →
          dictGet (gl.foldl (genLoopStep h fs) acc0).store n
            = dictGet acc0.store n)
      ∧ (∀ kp ∈ gl, ∀ c, dictGet fs (kp : String × String).2 = some c →
          dictGet (gl.foldl (genLoopStep h fs) acc0).store (stemIndexName kp.2)
            = some (FileIndex.toDict ⟨kp.2, c.length, scanGenerated c⟩))
      ∧ (∀ kp ∈ gl, dictGet fs (kp : String × String).2 = none →
          dictGet (gl.foldl (genLoopStep h fs) acc0).store (stemIndexName kp.2)
            = dictGet acc0.store (stemIndexName kp.2)) := by
  intro gl
  induction gl with
  | nil =>
    intro acc0 hfresh hpnd hsnd
    refine ⟨by simp, fun k _ => rfl, ?_, fun n _ => rfl, ?_, ?_⟩ <;>
      exact fun kp hkp => absurd hkp (List.not_mem_nil kp)
  | cons kp t ih =>
    intro acc0 hfresh hpnd hsnd
    rw [List.map_cons, List.nodup_cons] at hpnd hsnd
    obtain ⟨hp0, hpnd2⟩ := hpnd
    obtain ⟨hs0, hsnd2⟩ := hsnd
    have hp2 : ∀ q ∈ t, kp.2 ≠ (q : String × String).2 := by
      intro q hq heq
      apply hp0
      rw [heq]
      exact List.mem_map_of_mem _ hq
    have hs2 : ∀ q ∈ t, stemIndexName kp.2 ≠ stemIndexName (q : String × String).2 := by
      intro q hq heq
      apply hs0
      rw [heq]
      exact List.mem_map_of_mem _ hq
    rw [List.foldl_cons]
    cases hx : dictGet fs kp.2 with
    | none =>
      have hstep : genLoopStep h fs acc0 kp = acc0 := by
        unfold genLoopStep
        rw [hx]
      rw [hstep]
      obtain ⟨iG, iH1, iH2, iS1, iS2, iS3⟩ := ih acc0
        (fun q hq => hfresh q (List.mem_cons_of_mem _ hq)) hpnd2 hsnd2
      have hge : genEntry h fs kp = none := by
        unfold genEntry
        rw [hx]
        rfl
      refine ⟨?_, ?_, ?_, ?_, ?_, ?_⟩
      · rw [iG, List.filterMap_cons, hge]
      · intro k hk
        exact iH1 k (fun q hq => hk q (List.mem_cons_of_mem _ hq))
      · intro q hq c hc
        rcases List.mem_cons.mp hq with rfl | hq2
        · rw [hx] at hc
          exact absurd hc (by simp)
        · exact iH2 q hq2 c hc
      · intro n hn
        exact iS1 n (fun q hq => hn q (List.mem_cons_of_mem _ hq))
      · intro q hq c hc
        rcases List.mem_cons.mp hq with rfl | hq2
        · rw [hx] at hc
          exact absurd hc (by simp)
        · exact iS2 q hq2 c hc
      · intro q hq hc
        rcases List.mem_cons.mp hq with rfl | hq2
        · exact iS1 _ hs2
        · exact iS3 q hq2 hc
    | some c =>
      have hstep : genLoopStep h fs acc0 kp
          = ⟨acc0.gis ++ [(kp.1, ⟨kp.2, c.length, scanGenerated c⟩)],
             dictInsert acc0.store (stemIndexName kp.2)
               (FileIndex.toDict ⟨kp.2, c.length, scanGenerated c⟩),
             dictInsert acc0.hashes kp.2 (h c)⟩ := by
        unfold genLoopStep indexGeneratedFile shouldUpdateFile
        rw [hx, hfresh kp (List.mem_cons_self _ _)]
        rfl
      rw [hstep]
      have hfresh2 : ∀ q ∈ t,
          dictGet (⟨acc0.gis ++ [(kp.1, ⟨kp.2, c.length, scanGenerated c⟩)],
            dictInsert acc0.store (stemIndexName kp.2)
              (FileIndex.toDict ⟨kp.2, c.length, scanGenerated c⟩),
            dictInsert acc0.hashes kp.2 (h c)⟩ : GenLoopAcc).hashes
            (q : String × String).2 = none := by
        intro q hq
        show dictGet (dictInsert acc0.hashes kp.2 (h c)) q.2 = none
        rw [dictGet_dictInsert_ne acc0.hashes kp.2 q.2 (h c) (Ne.symm (hp2 q hq))]
        exact hfresh q (List.mem_cons_of_mem _ hq)
      obtain ⟨iG, iH1, iH2, iS1, iS2, iS3⟩ := ih
        ⟨acc0.gis ++ [(kp.1, ⟨kp.2, c.length, scanGenerated c⟩)],
         dictInsert acc0.store (stemIndexName kp.2)
           (FileIndex.toDict ⟨kp.2, c.length, scanGenerated c⟩),
         dictInsert acc0.hashes kp.2 (h c)⟩ hfresh2 hpnd2 hsnd2
      have hge : genEntry h fs kp
          = some (kp.1, ⟨kp.2, c.length, scanGenerated c⟩) := by
        unfold genEntry
        rw [hx]
        rfl
      refine ⟨?_, ?_, ?_, ?_, ?_, ?_⟩
      · rw [iG, List.filterMap_cons, hge]
        simp
      · intro k hk
        rw [iH1 k (fun q hq => hk q (List.mem_cons_of_mem _ hq))]
        show dictGet (dictInsert acc0.hashes kp.2 (h c)) k = dictGet acc0.hashes k
        exact dictGet_dictInsert_ne acc0.hashes kp.2 k (h c)
          (hk kp (List.mem_cons_self _ _))
      · intro q hq c2 hc
        rcases List.mem_cons.mp hq with heq | hq2
        · rw [heq] at hc ⊢
          rw [hx] at hc
          injection hc with hcc
          subst hcc
          rw [iH1 kp.2 hp2]
          show dictGet (dictInsert acc0.hashes kp.2 (h c)) kp.2 = some (h c)
          exact dictGet_dictInsert_self acc0.hashes kp.2 (h c)
        · exact iH2 q hq2 c2 hc
      · intro n hn
        rw [iS1 n (fun q hq => hn q (List.mem_cons_of_mem _ hq))]
        show dictGet (dictInsert acc0.store (stemIndexName kp.2)
          (FileIndex.toDict ⟨kp.2, c.length, scanGenerated c⟩)) n = dictGet acc0.store n
        exact dictGet_dictInsert_ne acc0.store (stemIndexName kp.2) n _
          (hn kp (List.mem_cons_self _ _))
      · intro q hq c2 hc
        rcases List.mem_cons.mp hq with heq | hq2
        · rw [heq] at hc ⊢
          rw [hx] at hc
          injection hc with hcc
          subst hcc
          rw [iS1 (stemIndexName kp.2) hs2]
          show dictGet (dictInsert acc0.store (stemIndexName kp.2)
            (FileIndex.toDict ⟨kp.2, c.length, scanGenerated c⟩)) (stemIndexName kp.2)
              = some (FileIndex.toDict ⟨kp.2, c.length, scanGenerated c⟩)
          exact dictGet_dictInsert_self acc0.store (stemIndexName kp.2) _
        · exact iS2 q hq2 c2 hc
      · intro q hq hc
        rcases List.mem_cons.mp hq with rfl | hq2
        · rw [hx] at hc
          exact absurd hc (by simp)
        · rw [iS3 q hq2 hc]
          show dictGet (dictInsert acc0.store (stemIndexName kp.2)
            (FileIndex.toDict ⟨kp.2, c.length, scanGenerated c⟩)) (stemIndexName q.2)
              = dictGet acc0.store (stemIndexName q.2)
          exact dictGet_dictInsert_ne acc0.store (stemIndexName kp.2)
            (stemIndexName q.2) _ (Ne.symm (hs2 q hq2))

/-- The generated-file indexing loop is the identity when every existing
configured file already has its current digest recorded. -/
theorem genLoop_frozen (h : List String → String) (fs : List (String × List String)) :
    ∀ (gl : List (String × String)) (acc0 : GenLoopAcc),
      (∀ kp ∈ gl, ∀ c, dictGet fs (kp : String × String).2 = some c →
          dictGet acc0.hashes kp.2 = some (h c)) →
      gl.foldl (genLoopStep h fs) acc0 = acc0 := by
  intro gl
  induction gl with
  | nil => intro acc0 _; rfl
  | cons kp t ih =>
    intro acc0 hcur
    rw [List.foldl_cons]
    have hstep : genLoopStep h fs acc0 kp = acc0 := by
      unfold genLoopStep
      cases hx : dictGet fs kp.2 with
      | none => rfl
      | some c =>
        unfold indexGeneratedFile shouldUpdateFile
        rw [hx, hcur kp (List.mem_cons_self _ _) c hx]
        dsimp only
        rw [if_pos rfl]
        rfl
    rw [hstep]
    exact ih acc0 (fun q hq c hc => hcur q (List.mem_cons_of_mem _ hq) c hc)

/-- The generated-index loading loop is the identity when every configured
key is already present or has no stored artifact. -/
theorem genLoad_noop (S : List (String × IndexDict)) :
    ∀ (gl : List (String × String)) (g0 : List (String × FileIndex)),
      (∀ kp ∈ gl, (dictGet g0 (kp : String × String).1).isSome
          ∨ dictGet S (stemIndexName kp.2) = none) →
      gl.foldl (genLoadStep S) g0 = g0 := by
  intro gl
  induction gl with
  | nil => intro g0 _; rfl
  | cons kp t ih =>
    intro g0 hcond
    rw [List.foldl_cons]
    have hstep : genLoadStep S g0 kp = g0 := by
      unfold genLoadStep
      rcases hcond kp (List.mem_cons_self _ _) with hs | hn
      · rw [if_pos hs]
      · by_cases hg : (dictGet g0 kp.1).isSome
        · rw [if_pos hg]
        · rw [if_neg hg, hn]
    rw [hstep]
    exact ih g0 (fun q hq => hcond q (List.mem_cons_of_mem _ hq))

/-- The generated-index loading loop rebuilds exactly the first-run
entries from a store holding one artifact per existing configured file. -/
theorem genLoad_build (h : List String → String) (fs : List (String × List String))
    (S : List (String × IndexDict)) :
    ∀ (gl : List (String × String)) (g0 : List (String × FileIndex)),
      ((gl.map Prod.fst).Nodup) →
      (∀ kp ∈ gl, dictGet g0 (kp : String × String).1 = none) →
      (∀ kp ∈ gl, ∀ c, dictGet fs (kp : String × String).2 = some c →
          dictGet S (stemIndexName kp.2)
            = some (FileIndex.toDict ⟨kp.2, c.length, scanGenerated c⟩)) →
      (∀ kp ∈ gl, dictGet fs (kp : String × String).2 = none →
          dictGet S (stemIndexName kp.2) = none) →
      gl.foldl (genLoadStep S) g0 = g0 ++ gl.filterMap (genEntry h fs) := by
  intro gl
  induction gl with
  | nil =>
    intro g0 _ _ _ _
    simp
  | cons kp t ih =>
    intro g0 hknd hg0 hsome hnone
    rw [List.map_cons, List.nodup_cons] at hknd
    obtain ⟨hk0, hknd2⟩ := hknd
    have hk2 : ∀ q ∈ t, kp.1 ≠ (q : String × String).1 := by
      intro q hq heq
      apply hk0
      rw [heq]
      exact List.mem_map_of_mem _ hq
    rw [List.foldl_cons]
    cases hx : dictGet fs kp.2 with
    | none =>
      have hstep : genLoadStep S g0 kp = g0 := by
        unfold genLoadStep
        rw [hg0 kp (List.mem_cons_self _ _), hnone kp (List.mem_cons_self _ _) hx]
        rfl
      have hge : genEntry h fs kp = none := by
        unfold genEntry
        rw [hx]
        rfl
      rw [hstep, List.filterMap_cons, hge]
      exact ih g0 hknd2 (fun q hq => hg0 q (List.mem_cons_of_mem _ hq))
        (fun q hq => hsome q (List.mem_cons_of_mem _ hq))
        (fun q hq => hnone q (List.mem_cons_of_mem _ hq))
    | some c =>
      have hstep : genLoadStep S g0 kp
          = g0 ++ [(kp.1, ⟨kp.2, c.length, scanGenerated c⟩)] := by
        unfold genLoadStep
        rw [hg0 kp (List.mem_cons_self _ _), hsome kp (List.mem_cons_self _ _) c hx]
        show g0 ++ [(kp.1, loadFileIndex
          (FileIndex.toDict ⟨kp.2, c.length, scanGenerated c⟩))] = _
        rw [loadFileIndex_toDict]
      have hge : genEntry h fs kp
          = some (kp.1, ⟨kp.2, c.length, scanGenerated c⟩) := by
        unfold genEntry
        rw [hx]
        rfl
      have hg2 : ∀ q ∈ t, dictGet
          (g0 ++ [(kp.1, (⟨kp.2, c.length, scanGenerated c⟩ : FileIndex))])
          (q : String × String).1 = none := by
        intro q hq
        rw [dictGet_append_none _ (hg0 q (List.mem_cons_of_mem _ hq))]
        simp only [dictGet]
        rw [if_neg (hk2 q hq)]
      rw [hstep]
      rw [ih (g0 ++ [(kp.1, (⟨kp.2, c.length, scanGenerated c⟩ : FileIndex))]) hknd2 hg2
          (fun q hq => hsome q (List.mem_cons_of_mem _ hq))
          (fun q hq => hnone q (List.mem_cons_of_mem _ hq))]
      rw [List.filterMap_cons, hge]
      simp

/-- Facts about a store and fingerprint table after a first run that make
a further run of the SQL pipeline reproduce the first resolution. -/
def StableFacts (h : List String → String) (fs : List (String × List String))
    (cfg : SqlConfig) (sl ql : List String)
    (St : List (String × IndexDict)) (Hs : List (String × String)) : Prop :=
  dictGet St "schema.sql.index.json"
      = some (FileIndex.toDict ⟨cfg.schema_file, sl.length, scanSchema sl⟩)
  ∧ dictGet St "query.sql.index.json"
      = some (FileIndex.toDict ⟨cfg.query_file, ql.length, scanQuery ql⟩)
  ∧ dictGet Hs cfg.schema_file = some (h sl)
  ∧ dictGet Hs cfg.query_file = some (h ql)
  ∧ (∀ kp ∈ cfg.generated, ∀ c, dictGet fs (kp : String × String).2 = some c →
      dictGet Hs kp.2 = some (h c))
  ∧ (∀ kp ∈ cfg.generated, ∀ c, dictGet fs (kp : String × String).2 = some c →
      dictGet St (stemIndexName kp.2)
        = some (FileIndex.toDict ⟨kp.2, c.length, scanGenerated c⟩))
  ∧ (∀ kp ∈ cfg.generated, dictGet fs (kp : String × String).2 = none →
      dictGet St (stemIndexName kp.2) = none)

/-- A fresh SQL run resolves both configured files by scanning them, builds
one generated index per existing configured generated file, and leaves a
store and fingerprint table satisfying the stability facts. -/
theorem sqlResolve_fresh_char (h : List String → String) (cfg : SqlConfig)
    (fs : List (String × List String)) (sl ql : List String)
    (hsf : dictGet fs cfg.schema_file = some sl)
    (hqf : dictGet fs cfg.query_file = some ql)
    (hne : cfg.query_file ≠ cfg.schema_file)
    (hpnd : (cfg.generated.map Prod.snd).Nodup)
    (hsnd : (cfg.generated.map (fun kp => stemIndexName (kp : String × String).2)).Nodup)
    (hgp : ∀ kp ∈ cfg.generated,
        (kp : String × String).2 ≠ cfg.schema_file ∧ kp.2 ≠ cfg.query_file
        ∧ stemIndexName kp.2 ≠ "schema.sql.index.json"
        ∧ stemIndexName kp.2 ≠ "query.sql.index.json") :
    ∃ St Hs, sqlResolve h cfg fs [] []
        = ⟨some ⟨cfg.schema_file, sl.length, scanSchema sl⟩,
           some ⟨cfg.query_file, ql.length, scanQuery ql⟩,
           cfg.generated.filterMap (genEntry h fs), St, Hs⟩
      ∧ StableFacts h fs cfg sl ql St Hs := by
  have hns : cfg.schema_file ≠ cfg.query_file := fun hh => hne hh.symm
  have h1 : indexSchemaFile h fs cfg []
      = (some ⟨cfg.schema_file, sl.length, scanSchema sl⟩, [(cfg.schema_file, h sl)]) := by
    unfold indexSchemaFile shouldUpdateFile
    rw [hsf]
    rfl
  have h2 : indexQueryFile h fs cfg [(cfg.schema_file, h sl)]
      = (some ⟨cfg.query_file, ql.length, scanQuery ql⟩,
         [(cfg.schema_file, h sl), (cfg.query_file, h ql)]) := by
    have hlook : dictGet [(cfg.schema_file, h sl)] cfg.query_file = none := by
      simp [dictGet, hns]
    have hins : dictInsert [(cfg.schema_file, h sl)] cfg.query_file (h ql)
        = [(cfg.schema_file, h sl), (cfg.query_file, h ql)] := by
      simp [dictInsert, hns]
    unfold indexQueryFile shouldUpdateFile
    rw [hqf, hlook]
    dsimp only
    rw [hins]
    rfl
  have hres : sqlResolve h cfg fs [] []
      = ⟨some ⟨cfg.schema_file, sl.length, scanSchema sl⟩,
         some ⟨cfg.query_file, ql.length, scanQuery ql⟩,
         cfg.generated.foldl (genLoadStep
           (cfg.generated.foldl (genLoopStep h fs)
             ⟨[], dictInsert (dictInsert [] "schema.sql.index.json"
                 (FileIndex.toDict ⟨cfg.schema_file, sl.length, scanSchema sl⟩))
               "query.sql.index.json"
               (FileIndex.toDict ⟨cfg.query_file, ql.length, scanQuery ql⟩),
              [(cfg.schema_file, h sl), (cfg.query_file, h ql)]⟩).store)
           (cfg.generated.foldl (genLoopStep h fs)
             ⟨[], dictInsert (dictInsert [] "schema.sql.index.json"
                 (FileIndex.toDict ⟨cfg.schema_file, sl.length, scanSchema sl⟩))
               "query.sql.index.json"
               (FileIndex.toDict ⟨cfg.query_file, ql.length, scanQuery ql⟩),
              [(cfg.schema_file, h sl), (cfg.query_file, h ql)]⟩).gis,
         (cfg.generated.foldl (genLoopStep h fs)
           ⟨[], dictInsert (dictInsert [] "schema.sql.index.json"
               (FileIndex.toDict ⟨cfg.schema_file, sl.length, scanSchema sl⟩))
             "query.sql.index.json"
             (FileIndex.toDict ⟨cfg.query_file, ql.length, scanQuery ql⟩),
            [(cfg.schema_file, h sl), (cfg.query_file, h ql)]⟩).store,
         (cfg.generated.foldl (genLoopStep h fs)
           ⟨[], dictInsert (dictInsert [] "schema.sql.index.json"
               (FileIndex.toDict ⟨cfg.schema_file, sl.length, scanSchema sl⟩))
             "query.sql.index.json"
             (FileIndex.toDict ⟨cfg.query_file, ql.length, scanQuery ql⟩),
            [(cfg.schema_file, h sl), (cfg.query_file, h ql)]⟩).hashes⟩ := by
    unfold sqlResolve
    rw [h1]
    dsimp only
    rw [h2]
  have hfresh : ∀ kp ∈ cfg.generated,
      dictGet [(cfg.schema_file, h sl), (cfg.query_file, h ql)]
        (kp : String × String).2 = none := by
    intro kp hkp
    simp only [dictGet]
    rw [if_neg (fun hh => (hgp kp hkp).1 hh.symm),
      if_neg (fun hh => (hgp kp hkp).2.1 hh.symm)]
  obtain ⟨gG, gH1, gH2, gS1, gS2, gS3⟩ := genLoop_char h fs cfg.generated
      ⟨[], dictInsert (dictInsert [] "schema.sql.index.json"
          (FileIndex.toDict ⟨cfg.schema_file, sl.length, scanSchema sl⟩))
        "query.sql.index.json"
        (FileIndex.toDict ⟨cfg.query_file, ql.length, scanQuery ql⟩),
       [(cfg.schema_file, h sl), (cfg.query_file, h ql)]⟩ hfresh hpnd hsnd
  obtain ⟨ACC, hACC⟩ : ∃ A : GenLoopAcc,
      cfg.generated.foldl (genLoopStep h fs)
        ⟨[], dictInsert (dictInsert [] "schema.sql.index.json"
            (FileIndex.toDict ⟨cfg.schema_file, sl.length, scanSchema sl⟩))
          "query.sql.index.json"
          (FileIndex.toDict ⟨cfg.query_file, ql.length, scanQuery ql⟩),
         [(cfg.schema_file, h sl), (cfg.query_file, h ql)]⟩ = A := ⟨_, rfl⟩
  rw [hACC] at hres gG gH1 gH2 gS1 gS2 gS3
  have hst_s : dictGet (dictInsert (dictInsert [] "schema.sql.index.json"
      (FileIndex.toDict ⟨cfg.schema_file, sl.length, scanSchema sl⟩))
      "query.sql.index.json"
      (FileIndex.toDict ⟨cfg.query_file, ql.length, scanQuery ql⟩))
      "schema.sql.index.json"
      = some (FileIndex.toDict ⟨cfg.schema_file, sl.length, scanSchema sl⟩) := by
    rw [dictGet_dictInsert_ne _ _ _ _ (by decide)]
    exact dictGet_dictInsert_self _ _ _
  have hst_o : ∀ n, n ≠ "schema.sql.index.json" → n ≠ "query.sql.index.json" →
      dictGet (dictInsert (dictInsert [] "schema.sql.index.json"
        (FileIndex.toDict ⟨cfg.schema_file, sl.length, scanSchema sl⟩))
        "query.sql.index.json"
        (FileIndex.toDict ⟨cfg.query_file, ql.length, scanQuery ql⟩)) n = none := by
    intro n hn1 hn2
    rw [dictGet_dictInsert_ne _ _ _ _ hn2, dictGet_dictInsert_ne _ _ _ _ hn1]
    rfl
  have hAs : dictGet ACC.store "schema.sql.index.json"
      = some (FileIndex.toDict ⟨cfg.schema_file, sl.length, scanSchema sl⟩) := by
    rw [gS1 _ (fun kp hkp => Ne.symm (hgp kp hkp).2.2.1)]
    exact hst_s
  have hAq : dictGet ACC.store "query.sql.index.json"
      = some (FileIndex.toDict ⟨cfg.query_file, ql.length, scanQuery ql⟩) := by
    rw [gS1 _ (fun kp hkp => Ne.symm (hgp kp hkp).2.2.2)]
    exact dictGet_dictInsert_self _ _ _
  have hAhs : dictGet ACC.hashes cfg.schema_file = some (h sl) := by
    rw [gH1 _ (fun kp hkp => Ne.symm (hgp kp hkp).1)]
    show dictGet [(cfg.schema_file, h sl), (cfg.query_file, h ql)] cfg.schema_file
        = some (h sl)
    simp [dictGet]
  have hAhq : dictGet ACC.hashes cfg.query_file = some (h ql) := by
    rw [gH1 _ (fun kp hkp => Ne.symm (hgp kp hkp).2.1)]
    show dictGet [(cfg.schema_file, h sl), (cfg.query_file, h ql)] cfg.query_file
        = some (h ql)
    simp [dictGet, hns]
  have hS3 : ∀ kp ∈ cfg.generated, dictGet fs (kp : String × String).2 = none →
      dictGet ACC.store (stemIndexName kp.2) = none := by
    intro kp hkp hx
    rw [gS3 kp hkp hx]
    exact hst_o _ ((hgp kp hkp).2.2.1) ((hgp kp hkp).2.2.2)
  have hgis : ACC.gis = cfg.generated.filterMap (genEntry h fs) := by
    rw [gG]
    simp
  have hnoop : cfg.generated.foldl (genLoadStep ACC.store) ACC.gis = ACC.gis := by
    apply genLoad_noop
    intro kp hkp
    cases hx : dictGet fs kp.2 with
    | some c =>
      left
      apply dictGet_isSome_of_mem (v := (⟨kp.2, c.length, scanGenerated c⟩ : FileIndex))
      rw [hgis]
      exact List.mem_filterMap.mpr ⟨kp, hkp, by unfold genEntry; rw [hx]; rfl⟩
    | none =>
      right
      exact hS3 kp hkp hx
  refine ⟨ACC.store, ACC.hashes, ?_, hAs, hAq, hAhs, hAhq, gH2, gS2, hS3⟩
  rw [hres, hnoop, hgis]

/-- A further SQL run over an unchanged filesystem with the stability facts
in force resolves the same indices without touching store or table. -/
theorem sqlResolve_stable (h : List String → String) (cfg : SqlConfig)
    (fs : List (String × List String)) (sl ql : List String)
    (St : List (String × IndexDict)) (Hs : List (String × String))
    (hsf : dictGet fs cfg.schema_file = some sl)
    (hqf : dictGet fs cfg.query_file = some ql)
    (hknd : (cfg.generated.map Prod.fst).Nodup)
    (hf : StableFacts h fs cfg sl ql St Hs) :
    sqlResolve h cfg fs St Hs
      = ⟨some ⟨cfg.schema_file, sl.length, scanSchema sl⟩,
         some ⟨cfg.query_file, ql.length, scanQuery ql⟩,
         cfg.generated.filterMap (genEntry h fs), St, Hs⟩ := by
  obtain ⟨f1, f2, f3, f4, f5, f6, f7⟩ := hf
  have h1 : indexSchemaFile h fs cfg Hs = (none, Hs) := by
    unfold indexSchemaFile shouldUpdateFile
    rw [hsf, f3]
    dsimp only
    rw [if_pos rfl]
    rfl
  have h2 : indexQueryFile h fs cfg Hs = (none, Hs) := by
    unfold indexQueryFile shouldUpdateFile
    rw [hqf, f4]
    dsimp only
    rw [if_pos rfl]
    rfl
  have hfrozen : cfg.generated.foldl (genLoopStep h fs) (⟨[], St, Hs⟩ : GenLoopAcc)
      = ⟨[], St, Hs⟩ :=
    genLoop_frozen h fs cfg.generated ⟨[], St, Hs⟩ f5
  have hbuild : cfg.generated.foldl (genLoadStep St) ([] : List (String × FileIndex))
      = cfg.generated.filterMap (genEntry h fs) := by
    have hb := genLoad_build h fs St cfg.generated [] hknd (fun kp _ => rfl) f6 f7
    simpa using hb
  unfold sqlResolve
  rw [h1]
  dsimp only
  rw [h2]
  dsimp only
  rw [hfrozen]
  dsimp only
  rw [hbuild, f1, f2]
  simp [loadFileIndex_toDict]

/-- A second SQL run over an unchanged filesystem and a collision-free
generated-file configuration writes the same artifacts as the first. -/
theorem sqlSecondRun_eq (h : List String → String)
    (tableIter : List String → List String) (cfg : SqlConfig)
    (fs : List (String × List String)) (sl ql : List String)
    (hsf : dictGet fs cfg.schema_file = some sl)
    (hqf : dictGet fs cfg.query_file = some ql)
    (hne : cfg.query_file ≠ cfg.schema_file)
    (hknd : (cfg.generated.map Prod.fst).Nodup)
    (hpnd : (cfg.generated.map Prod.snd).Nodup)
    (hsnd : (cfg.generated.map (fun kp => stemIndexName (kp : String × String).2)).Nodup)
    (hgp : ∀ kp ∈ cfg.generated,
        (kp : String × String).2 ≠ cfg.schema_file ∧ kp.2 ≠ cfg.query_file
        ∧ stemIndexName kp.2 ≠ "schema.sql.index.json"
        ∧ stemIndexName kp.2 ≠ "query.sql.index.json") :
    (runSql h tableIter cfg (runSql h tableIter cfg ⟨fs, [], [], []⟩).1).2
      = (runSql h tableIter cfg ⟨fs, [], [], []⟩).2 := by
  obtain ⟨St, Hs, hr1, hfacts⟩ :=
    sqlResolve_fresh_char h cfg fs sl ql hsf hqf hne hpnd hsnd hgp
  have hr2 := sqlResolve_stable h cfg fs sl ql St Hs hsf hqf hknd hfacts
  unfold runSql
  dsimp only
  rw [hr1]
  dsimp only
  rw [hr2]

/-- A second API run over an unchanged filesystem loads the saved index
artifacts back and writes the same operation caches as the first run. -/
theorem apiSecondRun_eq (h : List String → String) (acfg : ApiConfig)
    (afs : List (String × List String)) (sls bls : List String)
    (hspec : dictGet afs acfg.spec_file = some sls)
    (hbp : dictGet afs acfg.boilerplate_file = some bls) :
    ∃ w1 out w2,
      runApi h acfg ⟨afs, none, none, none, [], []⟩ = Except.ok (w1, out)
      ∧ runApi h acfg w1 = Except.ok (w2, out) := by
  have hbind : ∀ {α β : Type} (a : α) (f : α → Except Unit β),
      ((Except.ok a : Except Unit α) >>= f) = f a := fun a f => rfl
  have ha1 : apiIndexPaths h afs acfg [] none
      = Except.ok (scanPaths sls, [("taskflow.yaml", h sls)],
          some ⟨acfg.spec_file, sls.length,
            (scanPaths sls).map (fun p => (p.1, p.2.toDict))⟩) := by
    unfold apiIndexPaths shouldReindex
    rw [hspec]
    rfl
  have ha2 : apiIndexSchemas h afs acfg [("taskflow.yaml", h sls)] none
      = Except.ok ((scanSchemasYaml sls).map (fun p => (p.1, (⟨p.1, p.2⟩ : SchemaEntry))),
          [("taskflow.yaml", h sls), ("taskflow.yaml.schemas", h sls)],
          some ⟨acfg.spec_file, sls.length,
            ((scanSchemasYaml sls).map (fun p => (p.1, (⟨p.1, p.2⟩ : SchemaEntry)))).map
              (fun p => (p.1, p.2.toDict))⟩) := by
    unfold apiIndexSchemas shouldReindex
    rw [hspec]
    rfl
  have ha3 : apiIndexBoilerplate h afs acfg
      [("taskflow.yaml", h sls), ("taskflow.yaml.schemas", h sls)] none
      = Except.ok (scanBoilerplate bls acfg.boilerplate_file,
          [("taskflow.yaml", h sls), ("taskflow.yaml.schemas", h sls),
           ("boilerplate.gen.go", h bls)],
          some ⟨acfg.boilerplate_file, bls.length,
            (scanBoilerplate bls acfg.boilerplate_file).map
              (fun p => (p.1, p.2.toDict))⟩) := by
    unfold apiIndexBoilerplate shouldReindex
    rw [hbp]
    rfl
  have hb1 : apiIndexPaths h afs acfg
      [("taskflow.yaml", h sls), ("taskflow.yaml.schemas", h sls),
       ("boilerplate.gen.go", h bls)]
      (some ⟨acfg.spec_file, sls.length,
        (scanPaths sls).map (fun p => (p.1, p.2.toDict))⟩)
      = Except.ok (scanPaths sls,
          [("taskflow.yaml", h sls), ("taskflow.yaml.schemas", h sls),
           ("boilerplate.gen.go", h bls)],
          some ⟨acfg.spec_file, sls.length,
            (scanPaths sls).map (fun p => (p.1, p.2.toDict))⟩) := by
    have hlook : dictGet [("taskflow.yaml", h sls), ("taskflow.yaml.schemas", h sls),
        ("boilerplate.gen.go", h bls)] "taskflow.yaml" = some (h sls) := rfl
    unfold apiIndexPaths shouldReindex
    rw [hspec]
    dsimp only
    rw [hlook]
    dsimp only
    rw [if_pos rfl]
    dsimp only
    rw [loadPathsData_map (scanPaths sls) (scanPaths_key sls)]
  have hb2 : apiIndexSchemas h afs acfg
      [("taskflow.yaml", h sls), ("taskflow.yaml.schemas", h sls),
       ("boilerplate.gen.go", h bls)]
      (some ⟨acfg.spec_file, sls.length,
        ((scanSchemasYaml sls).map (fun p => (p.1, (⟨p.1, p.2⟩ : SchemaEntry)))).map
          (fun p => (p.1, p.2.toDict))⟩)
      = Except.ok ((scanSchemasYaml sls).map (fun p => (p.1, (⟨p.1, p.2⟩ : SchemaEntry))),
          [("taskflow.yaml", h sls), ("taskflow.yaml.schemas", h sls),
           ("boilerplate.gen.go", h bls)],
          some ⟨acfg.spec_file, sls.length,
            ((scanSchemasYaml sls).map (fun p => (p.1, (⟨p.1, p.2⟩ : SchemaEntry)))).map
              (fun p => (p.1, p.2.toDict))⟩) := by
    have hlook : dictGet [("taskflow.yaml", h sls), ("taskflow.yaml.schemas", h sls),
        ("boilerplate.gen.go", h bls)] "taskflow.yaml.schemas" = some (h sls) := rfl
    have hEkey : ∀ p ∈ (scanSchemasYaml sls).map
        (fun p => (p.1, (⟨p.1, p.2⟩ : SchemaEntry))), (p.2 : SchemaEntry).name = p.1 := by
      intro p hp
      obtain ⟨q, hq, rfl⟩ := List.mem_map.mp hp
      rfl
    unfold apiIndexSchemas shouldReindex
    rw [hspec]
    dsimp only
    rw [hlook]
    dsimp only
    rw [if_pos rfl]
    dsimp only
    rw [loadSchemasData_map _ hEkey]
  have hb3 : apiIndexBoilerplate h afs acfg
      [("taskflow.yaml", h sls), ("taskflow.yaml.schemas", h sls),
       ("boilerplate.gen.go", h bls)]
      (some ⟨acfg.boilerplate_file, bls.length,
        (scanBoilerplate bls acfg.boilerplate_file).map (fun p => (p.1, p.2.toDict))⟩)
      = Except.ok (scanBoilerplate bls acfg.boilerplate_file,
          [("taskflow.yaml", h sls), ("taskflow.yaml.schemas", h sls),
           ("boilerplate.gen.go", h bls)],
          some ⟨acfg.boilerplate_file, bls.length,
            (scanBoilerplate bls acfg.boilerplate_file).map
              (fun p => (p.1, p.2.toDict))⟩) := by
    have hlook : dictGet [("taskflow.yaml", h sls), ("taskflow.yaml.schemas", h sls),
        ("boilerplate.gen.go", h bls)] "boilerplate.gen.go" = some (h bls) := rfl
    unfold apiIndexBoilerplate shouldReindex
    rw [hbp]
    dsimp only
    rw [hlook]
    dsimp only
    rw [if_pos rfl]
    dsimp only
    rw [loadBpData_map _ (scanBoilerplate_key bls acfg.boilerplate_file)]
  obtain ⟨OUT, hOUT⟩ : ∃ o : List (String × OpCacheData),
      o = (scanPaths sls).foldl (fun acc p =>
        match generateOperationCache afs acfg p.2
            ((scanSchemasYaml sls).map (fun p => (p.1, (⟨p.1, p.2⟩ : SchemaEntry))))
            (scanBoilerplate bls acfg.boilerplate_file) with
        | Except.ok c => acc ++ [(p.2.operation_id ++ ".api.cache.json", c)]
        | Except.error _ => acc) [] := ⟨_, rfl⟩
  refine ⟨⟨afs,
      some ⟨acfg.spec_file, sls.length, (scanPaths sls).map (fun p => (p.1, p.2.toDict))⟩,
      some ⟨acfg.spec_file, sls.length,
        ((scanSchemasYaml sls).map (fun p => (p.1, (⟨p.1, p.2⟩ : SchemaEntry)))).map
          (fun p => (p.1, p.2.toDict))⟩,
      some ⟨acfg.boilerplate_file, bls.length,
        (scanBoilerplate bls acfg.boilerplate_file).map (fun p => (p.1, p.2.toDict))⟩,
      OUT.foldl (fun cm p => dictInsert cm p.1 p.2) [],
      [("taskflow.yaml", h sls), ("taskflow.yaml.schemas", h sls),
       ("boilerplate.gen.go", h bls)]⟩, OUT, ⟨afs,
      some ⟨acfg.spec_file, sls.length, (scanPaths sls).map (fun p => (p.1, p.2.toDict))⟩,
      some ⟨acfg.spec_file, sls.length,
        ((scanSchemasYaml sls).map (fun p => (p.1, (⟨p.1, p.2⟩ : SchemaEntry)))).map
          (fun p => (p.1, p.2.toDict))⟩,
      some ⟨acfg.boilerplate_file, bls.length,
        (scanBoilerplate bls acfg.boilerplate_file).map (fun p => (p.1, p.2.toDict))⟩,
      OUT.foldl (fun cm p => dictInsert cm p.1 p.2)
        (OUT.foldl (fun cm p => dictInsert cm p.1 p.2) []),
      [("taskflow.yaml", h sls), ("taskflow.yaml.schemas", h sls),
       ("boilerplate.gen.go", h bls)]⟩, ?_, ?_⟩
  · unfold runApi
    rw [ha1, hbind]
    dsimp only
    rw [ha2, hbind]
    dsimp only
    rw [ha3, hbind]
    dsimp only
    rw [hOUT]
    rfl
  · unfold runApi
    rw [hb1, hbind]
    dsimp only
    rw [hb2, hbind]
    dsimp only
    rw [hb3, hbind]
    dsimp only
    rw [hOUT]
    rfl

/-- Filesystem of the C1 stem-collision scenario. -/
def c1Fs : List (String × List String) :=
  [("schema.sql", ["CREATE TABLE t1 (a int);", "CREATE TABLE t2 (b int);"]),
   ("query.sql", ["-- name: GetBoth :many", "SELECT * FROM t1 JOIN t2 ON 1=1"]),
   ("query.sql.go", ["func (q *Queries) GetBoth() \x7b\x7d"]),
   ("models.sql.go", ["type T1 struct \x7b\x7d"])]

/-- Configuration of the C1 stem-collision scenario: the stem of
query.sql.go is query.sql, so its index artifact is saved under the same
name query.sql.index.json as the fixed query-index artifact. -/
def c1Cfg : SqlConfig :=
  ⟨"schema.sql", "query.sql",
   [("query_sql_go", "query.sql.go"), ("models_sql_go", "models.sql.go")]⟩

/-- Counterexample to C1 as stated: over an unchanged filesystem, with the
same set-enumeration order on both runs, the second run of the SQL
pipeline writes a GetBoth unit cache different from the first run's,
because the index artifact of the generated file query.sql.go is saved
under its stem name query.sql.index.json, clobbering the saved query
index, which the unchanged-fingerprint second run then loads back in
place of the real query index. -/
theorem claim_C1_counterexample :
    (runSql modelHash id c1Cfg (runSql modelHash id c1Cfg ⟨c1Fs, [], [], []⟩).1).2
      ≠ (runSql modelHash id c1Cfg ⟨c1Fs, [], [], []⟩).2 := by decide

/-- C1 as amended: with a fixed set-enumeration order and a fresh cache
state, a second run over an unchanged filesystem writes unit cache
artifacts identical to the first run's, provided the configured
generated-source files have pairwise distinct keys, paths and
index-artifact stems, none colliding with the schema or query path or
with the two fixed index-artifact names; the API pipeline needs no such
proviso beyond its two input files existing.  (Without the stem proviso
the original claim fails, see the counterexample.) -/
theorem claim_C1_second_run_identical (h : List String → String)
    (tableIter : List String → List String) (cfg : SqlConfig)
    (fs : List (String × List String)) (sl ql : List String)
    (hsf : dictGet fs cfg.schema_file = some sl)
    (hqf : dictGet fs cfg.query_file = some ql)
    (hne : cfg.query_file ≠ cfg.schema_file)
    (hknd : (cfg.generated.map Prod.fst).Nodup)
    (hpnd : (cfg.generated.map Prod.snd).Nodup)
    (hsnd : (cfg.generated.map (fun kp => stemIndexName (kp : String × String).2)).Nodup)
    (hgp : ∀ kp ∈ cfg.generated,
        (kp : String × String).2 ≠ cfg.schema_file ∧ kp.2 ≠ cfg.query_file
        ∧ stemIndexName kp.2 ≠ "schema.sql.index.json"
        ∧ stemIndexName kp.2 ≠ "query.sql.index.json")
    (acfg : ApiConfig) (afs : List (String × List String)) (sls bls : List String)
    (hspec : dictGet afs acfg.spec_file = some sls)
    (hbp : dictGet afs acfg.boilerplate_file = some bls) :
    (runSql h tableIter cfg (runSql h tableIter cfg ⟨fs, [], [], []⟩).1).2
        = (runSql h tableIter cfg ⟨fs, [], [], []⟩).2
    ∧ ∃ w1 out w2,
        runApi h acfg ⟨afs, none, none, none, [], []⟩ = Except.ok (w1, out)
        ∧ runApi h acfg w1 = Except.ok (w2, out) :=
  ⟨sqlSecondRun_eq h tableIter cfg fs sl ql hsf hqf hne hknd hpnd hsnd hgp,
   apiSecondRun_eq h acfg afs sls bls hspec hbp⟩

/-- Collision-free filesystem of the C1 witness. -/
def c1GoodFs : List (String × List String) :=
  [("schema.sql", ["CREATE TABLE t1 (a int);"]),
   ("query.sql", ["-- name: GetOne :one", "SELECT * FROM t1"]),
   ("q.sql.go", ["func (q *Queries) GetOne() \x7b\x7d"])]

/-- Collision-free configuration of the C1 witness; the second configured
generated file m.sql.go is absent from the filesystem. -/
def c1GoodCfg : SqlConfig :=
  ⟨"schema.sql", "query.sql",
   [("query_sql_go", "q.sql.go"), ("models_sql_go", "m.sql.go")]⟩

/-- Filesystem of the C1 API-side witness. -/
def c1ApiFs : List (String × List String) :=
  [("taskflow.yaml",
    ["paths:", "  /tasks:", "    get:", "      operationId: ListTasks", "components:"]),
   ("bp.gen.go", ["func (siw *ServerInterfaceWrapper) ListTasks() \x7b\x7d"])]

/-- Configuration of the C1 API-side witness. -/
def c1ApiCfg : ApiConfig := ⟨"taskflow.yaml", "bp.gen.go"⟩

/-- Witness for the amended C1 at concrete inputs. -/
theorem claim_C1_second_run_identical_witness :
    ((runSql modelHash id c1GoodCfg
          (runSql modelHash id c1GoodCfg ⟨c1GoodFs, [], [], []⟩).1).2
        = (runSql modelHash id c1GoodCfg ⟨c1GoodFs, [], [], []⟩).2)
    ∧ ∃ w1 out w2,
        runApi modelHash c1ApiCfg ⟨c1ApiFs, none, none, none, [], []⟩
            = Except.ok (w1, out)
        ∧ runApi modelHash c1ApiCfg w1 = Except.ok (w2, out) :=
  claim_C1_second_run_identical modelHash id c1GoodCfg c1GoodFs
    ["CREATE TABLE t1 (a int);"] ["-- name: GetOne :one", "SELECT * FROM t1"]
    (by decide) (by decide) (by decide) (by decide) (by decide) (by decide) (by decide)
    c1ApiCfg c1ApiFs
    ["paths:", "  /tasks:", "    get:", "      operationId: ListTasks", "components:"]
    ["func (siw *ServerInterfaceWrapper) ListTasks() \x7b\x7d"]
    (by decide) (by decide)

end KiloRules
